import Mathlib

set_option maxHeartbeats 1000000
set_option maxRecDepth 100000

/-!
# Verification of the LangGraph workflow engine

Shallow embedding of `langgraph_builder.py` (and the parts of
`agents/base_agent.py` the engine relies on): the JSON-like value model,
the environment-variable config resolver (`_resolve_env_variables`), the
step-input reference resolver (`_resolve_inputs`), the handler registry
(`_load_agent` with its `agents` cache), the per-step node function
(`_create_node_function`) and the sequential graph driver
(`build_graph` / `execute`).

Python strings are sequences of Unicode code points; we model them as
`List Char` internally and convert to Lean `String` at the boundaries.
`json.dumps` / `json.loads` are modeled by an executable serializer and
parser over the value type below (integers only; floats, `NaN` and lone
UTF-16 surrogate escapes are outside the modeled fragment).
-/

namespace Workflow

/-! ### Raw text utilities (Python `str` operations on code points) -/

/-- The character class of the regex `[A-Z_]` in `_resolve_env_variables`. -/
def isUpperUnd (c : Char) : Bool :=
  ('A' ≤ c && c ≤ 'Z') || c = '_'

/-- Python `str.replace(old, new)` for a nonempty pattern, left to
right and non-overlapping; structurally fueled (each step consumes at
least one character, so fuel `s.length` is exact). -/
def replaceAllFuel (pat rep : List Char) : Nat → List Char → List Char
  | 0, s => s
  | fuel+1, s =>
    match s with
    | [] => []
    | c :: rest =>
      if pat.isPrefixOf (c :: rest) then
        rep ++ replaceAllFuel pat rep fuel (rest.drop (pat.length - 1))
      else
        c :: replaceAllFuel pat rep fuel rest

/-- Python `str.replace(old, new)`; with an empty pattern we return the
string unchanged (the engine only ever replaces nonempty tokens). -/
def replaceAll (pat rep s : List Char) : List Char :=
  match pat with
  | [] => s
  | _ :: _ => replaceAllFuel pat rep s.length s

/-- Substring test (Python `in` on strings). -/
def containsSub (pat : List Char) : List Char → Bool
  | [] => pat.isEmpty
  | c :: rest => pat.isPrefixOf (c :: rest) || containsSub pat rest

/-- Python `str.split(sep)` for a single-character separator. -/
def splitOnChar (sep : Char) : List Char → List (List Char)
  | [] => [[]]
  | c :: rest =>
    let r := splitOnChar sep rest
    if c = sep then
      [] :: r
    else
      match r with
      | [] => [[c]]
      | piece :: more => (c :: piece) :: more

/-- Drop the last `n` characters (Python slice `s[:-n]`, for `n ≤ len`). -/
def dropRightN (n : Nat) (l : List Char) : List Char :=
  l.take (l.length - n)

/-- Python `str.strip()` restricted to ASCII whitespace. -/
def trimChars (l : List Char) : List Char :=
  ((l.dropWhile Char.isWhitespace).reverse.dropWhile Char.isWhitespace).reverse

/-! ### The JSON-like value model

A Python value as it appears in the workflow configuration and the
execution state: the result of `json.load` plus the dict/list/str/int/
bool/None values that handlers produce.  Objects model Python dicts as
insertion-ordered `(key, value)` lists; Python dicts have unique keys,
and lookups below take the first occurrence. -/

inductive Value where
  | null : Value
  | bool : Bool → Value
  | num : Int → Value
  | str : String → Value
  | arr : List Value → Value
  | obj : List (String × Value) → Value

/-- Dict lookup on an entry list (first occurrence wins; Python dicts
cannot contain a key twice). -/
def dictGet : List (String × Value) → String → Option Value
  | [], _ => none
  | (k, v) :: rest, key => if k = key then some v else dictGet rest key

/-- Python `d[key] = v`: overwrite if the key is present (keeping its
position), append otherwise. -/
def dictSet : List (String × Value) → String → Value → List (String × Value)
  | [], key, v => [(key, v)]
  | (k, w) :: rest, key, v =>
    if k = key then (k, v) :: rest else (k, w) :: dictSet rest key v

/-- `current[part]` in `_resolve_inputs`: indexing a dict by a string key
succeeds when the key is present; a missing key raises `KeyError` and
indexing any non-dict value by a string raises `TypeError`, both of which
the source catches — so both are `none` here. -/
def index? : Value → String → Option Value
  | .obj entries, key => dictGet entries key
  | _, _ => none

/-- The path walk `for part in parts: current = current[part]`. -/
def walk : Value → List String → Option Value
  | cur, [] => some cur
  | cur, p :: ps =>
    match index? cur p with
    | some nxt => walk nxt ps
    | none => none

/-- Python truthiness of a JSON-like value (`bool(v)`). -/
def pyTruthy : Value → Bool
  | .null => false
  | .bool b => b
  | .num n => n ≠ 0
  | .str s => s ≠ ""
  | .arr l => !l.isEmpty
  | .obj l => !l.isEmpty

/-! ### Decimal printing (`json.dumps` output for `int`) -/

/-- The decimal digit character for `n < 10`. -/
def digitChar (n : Nat) : Char := Char.ofNat (48 + n)

/-- Digit accumulation for `natToChars`, structurally fueled (the value
shrinks by a factor of ten each step, so fuel `n` is ample). -/
def natToCharsFuel : Nat → Nat → List Char → List Char
  | 0, _, acc => acc
  | fuel+1, n, acc =>
    if n = 0 then acc
    else natToCharsFuel fuel (n / 10) (digitChar (n % 10) :: acc)

/-- Standard decimal rendering of a `Nat` (no sign, no leading zeros). -/
def natToChars (n : Nat) : List Char :=
  if n = 0 then ['0'] else natToCharsFuel (n + 1) n []

/-- Python `repr` of an `int` as emitted by `json.dumps`. -/
def intToChars : Int → List Char
  | .ofNat n => natToChars n
  | .negSucc n => '-' :: natToChars (n + 1)

/-! ### `json.dumps` with `ensure_ascii=True` (the default used by the source) -/

/-- Lowercase hex digit for `n < 16`. -/
def hexChar (n : Nat) : Char :=
  if n < 10 then Char.ofNat (48 + n) else Char.ofNat (87 + n)

/-- A `\uXXXX` escape for a code unit `n < 0x10000`. -/
def hexQuad (n : Nat) : List Char :=
  ['\\', 'u', hexChar (n / 4096 % 16), hexChar (n / 256 % 16),
   hexChar (n / 16 % 16), hexChar (n % 16)]

/-- `json.dumps` escaping of one character: shortcut escapes for the
common control characters, printable ASCII kept as-is, everything else
as `\uXXXX` (with a UTF-16 surrogate pair above the BMP). -/
def escChar (c : Char) : List Char :=
  if c = '"' then ['\\', '"']
  else if c = '\\' then ['\\', '\\']
  else if c = '\n' then ['\\', 'n']
  else if c = '\t' then ['\\', 't']
  else if c = '\r' then ['\\', 'r']
  else if c.toNat = 8 then ['\\', 'b']
  else if c.toNat = 12 then ['\\', 'f']
  else if c.toNat < 0x20 then hexQuad c.toNat
  else if c.toNat < 0x7f then [c]
  else if c.toNat < 0x10000 then hexQuad c.toNat
  else
    hexQuad (0xd800 + (c.toNat - 0x10000) / 0x400) ++
      hexQuad (0xdc00 + (c.toNat - 0x10000) % 0x400)

def escChars : List Char → List Char
  | [] => []
  | c :: rest => escChar c ++ escChars rest

mutual

/-- `json.dumps(v)` with the default separators `", "` and `": "`. -/
def dumps : Value → List Char
  | .null => "null".data
  | .bool true => "true".data
  | .bool false => "false".data
  | .num n => intToChars n
  | .str s => '"' :: (escChars s.data ++ ['"'])
  | .arr [] => ['[', ']']
  | .arr (x :: xs) => '[' :: (dumps x ++ dumpsArrTail xs ++ [']'])
  | .obj [] => ['{', '}']
  | .obj (e :: es) => '{' :: (dumpsEntry e ++ dumpsObjTail es ++ ['}'])

def dumpsArrTail : List Value → List Char
  | [] => []
  | x :: xs => ',' :: ' ' :: (dumps x ++ dumpsArrTail xs)

def dumpsEntry : String × Value → List Char
  | (k, v) => '"' :: (escChars k.data ++ '"' :: ':' :: ' ' :: dumps v)

def dumpsObjTail : List (String × Value) → List Char
  | [] => []
  | e :: es => ',' :: ' ' :: (dumpsEntry e ++ dumpsObjTail es)

end

/-! ### `json.loads` (strict mode, as used by the source)

A recursive-descent parser over code points, fueled for termination.
Faithful to Python's strict JSON decoder on the integer fragment:
floats, `NaN`/`Infinity` and `\uXXXX` escapes denoting lone UTF-16
surrogates (not Unicode scalar values) are rejected rather than parsed. -/

/-- JSON insignificant whitespace. -/
def jsonWs (c : Char) : Bool :=
  c = ' ' || c = '\t' || c = '\n' || c = '\r'

def hexVal? (c : Char) : Option Nat :=
  if '0' ≤ c ∧ c ≤ '9' then some (c.toNat - 48)
  else if 'a' ≤ c ∧ c ≤ 'f' then some (c.toNat - 87)
  else if 'A' ≤ c ∧ c ≤ 'F' then some (c.toNat - 55)
  else none

/-- The code unit denoted by four hex digits (`\uXXXX`). -/
def hex4 (a b c d : Char) : Option Nat :=
  match hexVal? a, hexVal? b, hexVal? c, hexVal? d with
  | some x, some y, some z, some w => some (4096 * x + 256 * y + 16 * z + w)
  | _, _, _, _ => none

/-- The low-surrogate half of a `\uXXXX\uXXXX` pair: six more characters
`\uXXXX` must follow the high surrogate `n`, their value must be a low
surrogate, and the decoded character combines the two halves. -/
def escSurrogatePair (n : Nat) : List Char → Option (Char × List Char)
  | s1 :: s2 :: a :: b :: c :: d :: r =>
    if s1 = '\\' then
      if s2 = 'u' then
        match hex4 a b c d with
        | none => none
        | some m =>
          if 0xdc00 ≤ m ∧ m < 0xe000 then
            some (Char.ofNat (0x10000 + 0x400 * (n - 0xd800) + (m - 0xdc00)), r)
          else none
      else none
    else none
  | _ => none

/-- Decode `\uXXXX` (the input starts after the `u`): a scalar value in
the BMP stands alone, a high surrogate must be followed by a low
surrogate, and a lone low surrogate is rejected (strict mode). -/
def escUnicode : List Char → Option (Char × List Char)
  | a :: b :: c :: d :: r =>
    match hex4 a b c d with
    | none => none
    | some n =>
      if n < 0xd800 then some (Char.ofNat n, r)
      else if n < 0xdc00 then escSurrogatePair n r
      else if n < 0xe000 then none
      else some (Char.ofNat n, r)
  | _ => none

/-- Decode one backslash escape (the input starts after the backslash). -/
def escDecode : List Char → Option (Char × List Char)
  | [] => none
  | e :: r =>
    if e = '"' then some ('"', r)
    else if e = '\\' then some ('\\', r)
    else if e = '/' then some ('/', r)
    else if e = 'b' then some ('\x08', r)
    else if e = 'f' then some ('\x0c', r)
    else if e = 'n' then some ('\n', r)
    else if e = 'r' then some ('\r', r)
    else if e = 't' then some ('\t', r)
    else if e = 'u' then escUnicode r
    else none

/-- Parse the body of a JSON string literal (after the opening quote),
decoding escapes, up to and including the closing quote.  Each consumed
character (or escape group) spends one unit of fuel, so fuel equal to
the length of the input always suffices. -/
def parseStringBodyFuel : Nat → List Char → Option (List Char × List Char)
  | 0, _ => none
  | fuel+1, s =>
    match s with
    | [] => none
    | c :: rest =>
      if c = '"' then some ([], rest)
      else if c = '\\' then
        match escDecode rest with
        | none => none
        | some (d, w) => (parseStringBodyFuel fuel w).map fun pr => (d :: pr.1, pr.2)
      else if c.toNat < 0x20 then none
      else (parseStringBodyFuel fuel rest).map fun pr => (c :: pr.1, pr.2)

def parseStringBody (s : List Char) : Option (List Char × List Char) :=
  parseStringBodyFuel s.length s

/-- Consume a run of decimal digits, accumulating their value. -/
def parseDigits : List Char → Nat → Nat × List Char
  | c :: rest, acc =>
    if c.isDigit then parseDigits rest (acc * 10 + (c.toNat - 48)) else (acc, c :: rest)
  | [], acc => (acc, [])

/-- The integer part of a JSON number: `0`, or a nonzero digit followed
by more digits (the regex `(0|[1-9]\d*)`, maximal munch). -/
def parseNumberNat : List Char → Option (Nat × List Char)
  | [] => none
  | c :: rest =>
    if c = '0' then some (0, rest)
    else if c.isDigit then some (parseDigits rest (c.toNat - 48))
    else none

/-- Does a fraction or exponent follow (which would make the number a
float, outside the modeled fragment)? -/
def floatFollows : List Char → Bool
  | c :: _ => c = '.' || c = 'e' || c = 'E'
  | [] => false

/-- A context in which a serialized number ends: the remainder starts
with a character that extends neither the digit run nor a float form. -/
def numBoundary : List Char → Bool
  | [] => true
  | c :: _ => !c.isDigit && !(c = '.') && !(c = 'e') && !(c = 'E')

def parseNumber : List Char → Option (Value × List Char)
  | [] => none
  | c :: rest =>
    if c = '-' then
      match parseNumberNat rest with
      | some (n, r) => if floatFollows r then none else some (.num (-(n : Int)), r)
      | none => none
    else
      match parseNumberNat (c :: rest) with
      | some (n, r) => if floatFollows r then none else some (.num ((n : Int)), r)
      | none => none

mutual

def parseValue : Nat → List Char → Option (Value × List Char)
  | 0, _ => none
  | fuel+1, s =>
    let s2 := s.dropWhile jsonWs
    if s2.take 4 = ['n', 'u', 'l', 'l'] then some (.null, s2.drop 4)
    else if s2.take 4 = ['t', 'r', 'u', 'e'] then some (.bool true, s2.drop 4)
    else if s2.take 5 = ['f', 'a', 'l', 's', 'e'] then some (.bool false, s2.drop 5)
    else
      match s2 with
      | '"' :: r => (parseStringBody r).map fun pr => (.str pr.1.asString, pr.2)
      | '[' :: r =>
        match r.dropWhile jsonWs with
        | ']' :: r2 => some (.arr [], r2)
        | r2 => parseElems fuel r2 []
      | '{' :: r =>
        match r.dropWhile jsonWs with
        | '}' :: r2 => some (.obj [], r2)
        | r2 => parseMembers fuel r2 []
      | s3 => parseNumber s3

def parseElems : Nat → List Char → List Value → Option (Value × List Char)
  | 0, _, _ => none
  | fuel+1, s, acc =>
    match parseValue fuel s with
    | none => none
    | some (v, r) =>
      match r.dropWhile jsonWs with
      | ',' :: r2 => parseElems fuel (r2.dropWhile jsonWs) (acc ++ [v])
      | ']' :: r2 => some (.arr (acc ++ [v]), r2)
      | _ => none

def parseMembers : Nat → List Char → List (String × Value) → Option (Value × List Char)
  | 0, _, _ => none
  | fuel+1, s, acc =>
    match s with
    | '"' :: r =>
      match parseStringBody r with
      | none => none
      | some (k, r2) =>
        match r2.dropWhile jsonWs with
        | ':' :: r3 =>
          match parseValue fuel r3 with
          | none => none
          | some (v, r4) =>
            match r4.dropWhile jsonWs with
            | ',' :: r5 => parseMembers fuel (r5.dropWhile jsonWs) (acc ++ [(k.asString, v)])
            | '}' :: r5 => some (.obj (acc ++ [(k.asString, v)]), r5)
            | _ => none
        | _ => none
    | _ => none

end

/-- `json.loads`: parse one value, then require only whitespace to
remain (Python raises `Extra data` otherwise).  The fuel `2·|s| + 2`
is enough for any input this decoder can accept. -/
def loads (s : List Char) : Option Value :=
  match parseValue (2 * s.length + 2) s with
  | some (v, rest) => if (rest.dropWhile jsonWs).isEmpty then some v else none
  | none => none

/-! ### `_resolve_env_variables` (the ConfigResolver) -/

/-- One token found by the regex scan over `re.findall(r'\{\{([A-Z_]+)\}\}', s)`:
the scanner walks left to right; at a `{{` it takes the maximal nonempty
run of `[A-Z_]` characters and requires `}}` immediately after, resuming
after the match (or at the next position on failure). -/
def findTokensFuel : Nat → List Char → List (List Char)
  | 0, _ => []
  | fuel+1, s =>
    match s with
    | '{' :: '{' :: rest =>
      let run := rest.takeWhile isUpperUnd
      if run.isEmpty then findTokensFuel fuel ('{' :: rest)
      else if (rest.drop run.length).take 2 = ['}', '}'] then
        run :: findTokensFuel fuel ((rest.drop run.length).drop 2)
      else findTokensFuel fuel ('{' :: rest)
    | _ :: rest => findTokensFuel fuel rest
    | [] => []

def findTokens (s : List Char) : List (List Char) :=
  findTokensFuel s.length s

/-- `os.getenv(var, f"MISSING_{var}")`. -/
def envValue (env : String → Option String) (var : List Char) : List Char :=
  match env var.asString with
  | some v => v.data
  | none => "MISSING_".data ++ var

/-- The literal token text for a variable name. -/
def tokenOf (var : List Char) : List Char :=
  '{' :: '{' :: (var ++ ['}', '}'])

/-- The substitution loop:
`for var in matches: config_str = config_str.replace(...)`. -/
def substLoop (env : String → Option String) : List (List Char) → List Char → List Char
  | [], s => s
  | var :: more, s => substLoop env more (replaceAll (tokenOf var) (envValue env var) s)

/-- `_resolve_env_variables`: serialize, find all `{{VAR}}` tokens,
substitute each (in scan order), and parse back; a parse failure is the
`SubstitutionError` of the spec (in the source: an uncaught
`json.JSONDecodeError`). -/
def resolve_env_variables (env : String → Option String) (config : Value) :
    Except String Value :=
  let config_str := dumps config
  let ms := findTokens config_str
  let out := substLoop env ms config_str
  match loads out with
  | some v => Except.ok v
  | none => Except.error "SubstitutionError"

/-! ### Logging

The source logs through the module logger; we model the log calls the
claims talk about as an event stream threaded through the run. -/

inductive LogEvent where
  | executingNode (id agent : String)
  | nodeCompleted (id : String)
  | nodeError (id msg : String)
  | configRefWarn (path : String)
  | refWarn (path : String)
  | loadFail (name : String)

/-! ### `_resolve_inputs` (the ReferenceResolver) -/

/-- `value.startswith("{{") and value.endswith("}}")`. -/
def isRefStr (s : String) : Bool :=
  (['{', '{'] : List Char).isPrefixOf s.data &&
    (['}', '}'] : List Char).isSuffixOf s.data

/-- `value[2:-2].strip()`. -/
def refPathOf (s : String) : List Char :=
  trimChars (dropRightN 2 (s.data.drop 2))

/-- `ref_path.split('.')`. -/
def refParts (s : String) : List String :=
  (splitOnChar '.' (refPathOf s)).map List.asString

/-- The body of the `_resolve_inputs` loop for one input value.  Note:
when the first path segment is `config`, the source walks
`self.workflow_config` with the **full** part list — the segment
`config` itself included. -/
def resolveVal (workflow_config state_data : Value) (v : Value) : Value × List LogEvent :=
  match v with
  | .str s =>
    if isRefStr s then
      let parts := refParts s
      match parts with
      | [] => (.null, [])
      | p0 :: _ =>
        if p0 = "config" then
          match walk workflow_config parts with
          | some cur => (cur, [])
          | none => (.null, [.configRefWarn (refPathOf s).asString])
        else
          match walk state_data parts with
          | some cur => (cur, [])
          | none => (.null, [.refWarn (refPathOf s).asString])
    else (v, [])
  | _ => (v, [])

/-- `_resolve_inputs`: resolve every input independently, in order. -/
def resolve_inputs (workflow_config state_data : Value) :
    List (String × Value) → List (String × Value) × List LogEvent
  | [] => ([], [])
  | (k, v) :: rest =>
    let r := resolveVal workflow_config state_data v
    let rs := resolve_inputs workflow_config state_data rest
    ((k, r.1) :: rs.1, r.2 ++ rs.2)

/-! ### Agents (`_load_agent` and the `BaseAgent` execution contract) -/

/-- An agent's `_act(reasoning, inputs, tools)`: the only part of a
handler that may raise into the engine (`_reason` catches its own
exceptions and returns an error string instead). -/
def AgentAct : Type :=
  String → List (String × Value) → Value → Except String Value

/-- The LLM/reasoning oracle: `_reason` is total (it catches upstream
failures), so it is a function producing the reasoning text.  Arguments:
agent name, resolved inputs, instructions, tools. -/
def ReasonFn : Type :=
  String → List (String × Value) → Value → Value → String

/-- A live agent instance: stateful, accumulating its reasoning history
in place across invocations (`BaseAgent.reasoning_history`). -/
structure AgentInst where
  agent_name : String
  act : AgentAct
  reasoning_history : List (List (String × Value) × String × Value)

/-- `BaseAgent._act`: the generic pass-through action; never raises. -/
def baseAct (agent_name : String) : AgentAct := fun reasoning inputs _tools =>
  .ok (.obj [("status", .str "completed"), ("reasoning", .str reasoning),
             ("inputs_processed", .obj inputs), ("agent", .str agent_name)])

/-- `_load_agent`: dynamic import of the named agent class, modeled by
the environment `loadable`; on `ImportError`/`AttributeError` it logs
and falls back to a fresh `BaseAgent` instead of raising. -/
def load_agent (loadable : String → Option AgentAct) (agent_name : String) :
    AgentInst × List LogEvent :=
  match loadable agent_name with
  | some f => ({ agent_name := agent_name, act := f, reasoning_history := [] }, [])
  | none =>
    ({ agent_name := agent_name, act := baseAct agent_name, reasoning_history := [] },
     [.loadFail agent_name])

/-- `BaseAgent.execute`: reason, act, and append to the instance's
reasoning history on success; a raise from `_act` leaves the instance
unchanged and propagates. -/
def agentExecute (reasonFn : ReasonFn) (a : AgentInst) (inputs : List (String × Value))
    (instructions tools : Value) : Except String Value × AgentInst :=
  let reasoning := reasonFn a.agent_name inputs instructions tools
  match a.act reasoning inputs tools with
  | .ok result =>
    (.ok result,
     { a with reasoning_history := a.reasoning_history ++ [(inputs, reasoning, result)] })
  | .error e => (.error e, a)

/-! ### The engine state and the per-step node function -/

/-- One entry of `state['history']`. -/
structure HistoryRecord where
  step : String
  agent : String
  inputs : List (String × Value)
  output : Value

/-- The `WorkflowState` TypedDict threaded between nodes. -/
structure WorkflowState where
  workflow_name : Value
  current_step : String
  data : Value
  errors : List String
  history : List HistoryRecord

/-- The engine's state for one run: the graph state plus the builder's
`self.agents` instance cache and the log stream. -/
structure EngineState where
  st : WorkflowState
  agents : List (String × AgentInst)
  log : List LogEvent

/-- `agent_name in self.agents` / `self.agents[agent_name]`. -/
def lookupAgent : List (String × AgentInst) → String → Option AgentInst
  | [], _ => none
  | (k, a) :: rest, key => if k = key then some a else lookupAgent rest key

/-- In-place mutation of the cached instance (object identity in
Python: the cache holds the same object the node just ran). -/
def setAgent : List (String × AgentInst) → String → AgentInst → List (String × AgentInst)
  | [], key, a => [(key, a)]
  | (k, b) :: rest, key, a =>
    if k = key then (k, a) :: rest else (k, b) :: setAgent rest key a

/-- The run's external collaborators: the process environment, the
importable agent implementations, and the LLM oracle. -/
structure RunEnv where
  env : String → Option String
  loadable : String → Option AgentAct
  reasonFn : ReasonFn

/-- `if agent_name not in self.agents: self.agents[agent_name] = self._load_agent(...)`
followed by `agent = self.agents[agent_name]`: the instance used by the
node, the cache afterwards, and any load-failure log. -/
def usedAgent (loadable : String → Option AgentAct) (agents : List (String × AgentInst))
    (agent_name : String) : AgentInst × List (String × AgentInst) × List LogEvent :=
  match lookupAgent agents agent_name with
  | some a => (a, agents, [])
  | none =>
    let la := load_agent loadable agent_name
    (la.1, agents ++ [(agent_name, la.1)], la.2)

/-- The node function produced by `_create_node_function(step_config)`.
Error results model exceptions that escape the node (everything *not*
inside the source's `try`): in particular a `SubstitutionError` from
`_resolve_env_variables` propagates instead of being recorded.  Step
ids and agent names are modeled as strings (they are strings in the
workflow document; non-string ids are outside the modeled fragment). -/
def node_function (renv : RunEnv) (workflow_config step_config : Value)
    (es : EngineState) : Except String EngineState :=
  match step_config with
  | .obj sc =>
    match dictGet sc "id", dictGet sc "agent" with
    | some (.str step_id), some (.str agent_name) =>
      let log1 := es.log ++ [LogEvent.executingNode step_id agent_name]
      let loadRes := usedAgent renv.loadable es.agents agent_name
      let agent := loadRes.1
      let agents1 := loadRes.2.1
      let log2 := log1 ++ loadRes.2.2
      match (dictGet sc "inputs").getD (.obj []) with
      | .obj inputEntries =>
        let ir := resolve_inputs workflow_config es.st.data inputEntries
        let inputs := ir.1
        let log3 := log2 ++ ir.2
        match resolve_env_variables renv.env
            (.obj [("tools", (dictGet sc "tools").getD (.arr []))]) with
        | .error e => .error e
        | .ok tools_config =>
          match tools_config with
          | .obj tcEntries =>
            match dictGet tcEntries "tools" with
            | none => .error "KeyError: tools"
            | some tools =>
              let instructions := (dictGet sc "instructions").getD (.str "")
              match agentExecute renv.reasonFn agent inputs instructions tools with
              | (.ok result, agent') =>
                match es.st.data with
                | .obj dataEntries =>
                  .ok { st := { es.st with
                          data := .obj (dictSet dataEntries step_id (.obj [("output", result)])),
                          current_step := step_id,
                          history := es.st.history ++
                            [{ step := step_id, agent := agent_name,
                               inputs := inputs, output := result }] },
                        agents := setAgent agents1 agent_name agent',
                        log := log3 ++ [LogEvent.nodeCompleted step_id] }
                | _ =>
                  .ok { st := { es.st with
                          errors := es.st.errors ++ [step_id ++ ": TypeError"] },
                        agents := setAgent agents1 agent_name agent',
                        log := log3 ++ [LogEvent.nodeError step_id "TypeError"] }
              | (.error e, agent') =>
                .ok { st := { es.st with
                        errors := es.st.errors ++ [step_id ++ ": " ++ e] },
                      agents := setAgent agents1 agent_name agent',
                      log := log3 ++ [LogEvent.nodeError step_id e] }
          | _ => .error "TypeError: tools_config"
      | _ => .error "AttributeError: inputs"
    | _, _ => .error "KeyError: step_config"
  | _ => .error "TypeError: step_config"

/-! ### `build_graph` and `execute` -/

/-- `workflow.add_node(step['id'], ...)` over the declared steps:
collects the node names, failing like the source would (a `KeyError`
for a missing id, LangGraph's `ValueError` for a duplicate node). -/
def collectIds : List Value → List String → Except String (List String)
  | [], acc => .ok acc.reverse
  | sc :: rest, acc =>
    match sc with
    | .obj entries =>
      match dictGet entries "id" with
      | some (.str i) =>
        if acc.contains i then .error "ValueError: duplicate node"
        else collectIds rest (i :: acc)
      | _ => .error "KeyError: id"
    | _ => .error "TypeError: step"

/-- `build_graph`: a linear chain — nodes in declared order, an edge
from each step to the next, entry point at step 0 and the edge from the
last step to END.  The compiled graph is the ordered step list. -/
def build_graph (workflow_config : Value) : Except String (List Value) :=
  match workflow_config with
  | .obj wc =>
    match dictGet wc "steps" with
    | some (.arr steps) =>
      match collectIds steps [] with
      | .error e => .error e
      | .ok _ => if steps.isEmpty then .error "IndexError: steps" else .ok steps
    | some _ => .error "TypeError: steps"
    | none => .error "KeyError: steps"
  | _ => .error "TypeError: workflow_config"

/-- `self.graph.invoke(initial_state)`: the compiled linear graph runs
the node functions sequentially in declared order, each node receiving
the state left by the previous one. -/
def run_steps (renv : RunEnv) (workflow_config : Value) :
    List Value → EngineState → Except String EngineState
  | [], es => .ok es
  | sc :: rest, es =>
    match node_function renv workflow_config sc es with
    | .ok es' => run_steps renv workflow_config rest es'
    | .error e => .error e

/-- The run result dict returned by `execute`. -/
structure RunResult where
  success : Bool
  data : Value
  errors : List String
  history : List HistoryRecord

/-- `execute(initial_data)`: build the graph, seed the initial state
(`'data': initial_data or {}`), run it, and package the final state.
An error result models an exception escaping `execute()`. -/
def execute (renv : RunEnv) (workflow_config : Value) (initial_data : Option Value) :
    Except String RunResult :=
  match build_graph workflow_config with
  | .error e => .error e
  | .ok steps =>
    match index? workflow_config "workflow_name" with
    | none => .error "KeyError: workflow_name"
    | some wn =>
      let seed : Value :=
        match initial_data with
        | some d => if pyTruthy d then d else .obj []
        | none => .obj []
      let es0 : EngineState :=
        { st := { workflow_name := wn, current_step := "", data := seed,
                  errors := [], history := [] },
          agents := [], log := [] }
      match run_steps renv workflow_config steps es0 with
      | .error e => .error e
      | .ok es =>
        .ok { success := es.st.errors.isEmpty, data := es.st.data,
              errors := es.st.errors, history := es.st.history }

/-! ### Concrete fixtures used by witnesses and counterexamples -/

/-- The reference string `{{path}}` for a given dot-path. -/
def braced (path : String) : String :=
  ('{' :: '{' :: (path.data ++ ['}', '}'])).asString

/-- A minimal loaded workflow definition: the two required keys, one
step.  (`_validate_workflow` requires exactly `workflow_name` and
`steps`, nonempty.) -/
def wfDefC1 : Value := .obj [
  ("workflow_name", .str "test_wf"),
  ("steps", .arr [.obj [("id", .str "s1"), ("agent", .str "Agent")]])]

/-- The step dict of the C2 fixture: its tool config carries an
`{{API_KEY}}` placeholder. -/
def scC2 : List (String × Value) :=
  [("id", .str "A"), ("agent", .str "AgentA"),
   ("tools", .arr [.obj [("name", .str "t"),
     ("config", .obj [("key", .str (braced "API_KEY"))])]])]

/-- A workflow whose only step is `scC2`. -/
def wfDefC2 : Value := .obj [
  ("workflow_name", .str "w"),
  ("steps", .arr [.obj scC2])]

/-- An environment in which `API_KEY` is set to a value containing a
double quote, so that substituting it into the serialized config
produces text that is no longer valid JSON. -/
def envC2 : String → Option String :=
  fun v => if v = "API_KEY" then some "ab\"c" else none

def renvC2 : RunEnv :=
  { env := envC2,
    loadable := fun _ => some fun _ _ _ => .ok .null,
    reasonFn := fun _ _ _ _ => "" }

/-- The id of a step dict (as used for the graph node name). -/
def stepIdOf (sc : Value) : String :=
  match sc with
  | .obj entries =>
    match dictGet entries "id" with
    | some (.str i) => i
    | _ => ""
  | _ => ""

/-- The `Executing node: …` entries of the log — the visit order. -/
def execLog : List LogEvent → List String
  | [] => []
  | .executingNode i _ :: rest => i :: execLog rest
  | _ :: rest => execLog rest

/-- A step that the node function can run to completion under the given
environment: string id and agent, dict-shaped inputs, and tool-config
substitution that parses back (no `SubstitutionError`). -/
def stepWFb (env : String → Option String) (sc : Value) : Bool :=
  match sc with
  | .obj entries =>
    (match dictGet entries "id" with | some (.str _) => true | _ => false) &&
    (match dictGet entries "agent" with | some (.str _) => true | _ => false) &&
    (match (dictGet entries "inputs").getD (.obj []) with
     | .obj _ => true | _ => false) &&
    (match resolve_env_variables env
        (.obj [("tools", (dictGet entries "tools").getD (.arr []))]) with
     | .ok (.obj tc) => (dictGet tc "tools").isSome
     | _ => false)
  | _ => false

/-- The ids of the steps whose flag is `true`, in declared order. -/
def selectIds : List Value → List Bool → List String
  | sc :: steps, b :: flags =>
    if b then stepIdOf sc :: selectIds steps flags else selectIds steps flags
  | _, _ => []

/-- A run environment for witnesses: nothing loadable (every step falls
back to the pass-through agent), empty process environment. -/
def renvW : RunEnv :=
  { env := fun _ => none, loadable := fun _ => none, reasonFn := fun _ _ _ _ => "r" }

/-- Value of a digit run under a left accumulator (the computation
`parseDigits` performs). -/
def valAcc (a : Nat) : List Char → Nat
  | [] => a
  | c :: l => valAcc (a * 10 + (c.toNat - 48)) l

/-- A token-free configuration used to witness C8. -/
def cfgC8 : Value :=
  .obj [("api_url", .str "https://api.hunter.io/v2"),
    ("max_results", .num 50),
    ("flags", .arr [.bool true, .null, .num (-3)]),
    ("note", .str "plain text, no tokens")]

/-- The characters a `{{VAR}}` token may contain. -/
def isTokChar (c : Char) : Bool := isUpperUnd c || c = '{' || c = '}'

mutual

/-- The value-level effect of a global `str.replace` on the serialized
text: every string (keys included) undergoes the textual replacement. -/
def substStr (pat rep : List Char) : Value → Value
  | .str s => .str (replaceAll pat rep s.data).asString
  | .arr l => .arr (substStrList pat rep l)
  | .obj l => .obj (substStrObj pat rep l)
  | .null => .null
  | .bool b => .bool b
  | .num n => .num n

def substStrList (pat rep : List Char) : List Value → List Value
  | [] => []
  | x :: xs => substStr pat rep x :: substStrList pat rep xs

def substStrObj (pat rep : List Char) :
    List (String × Value) → List (String × Value)
  | [] => []
  | (k, v) :: es =>
    ((replaceAll pat rep k.data).asString, substStr pat rep v) ::
      substStrObj pat rep es

end

/-- The variable name `API_KEY` as a character list. -/
def apiKeyVar : List Char := ['A', 'P', 'I', '_', 'K', 'E', 'Y']

/-- The sentinel `MISSING_API_KEY`. -/
def missingApiKey : List Char :=
  ['M', 'I', 'S', 'S', 'I', 'N', 'G', '_', 'A', 'P', 'I', '_', 'K', 'E', 'Y']

/-- A config whose serialization contains `<<A>>` then `<<API_KEY>>`
(written with braces in the source text). -/
def cfgC7x : Value := .str (braced "A" ++ braced "API_KEY")

/-- An environment where `A` is bound to a double quote and `API_KEY`
is absent. -/
def envC7x : String → Option String :=
  fun s => if s = "A" then some "\x22" else none

/-- A config carrying a single `API_KEY` token, used to witness the
amended C7. -/
def cfgC7w : Value := .obj [("url", .str "https://api.hunter.io/v2"),
  ("headers", .obj [("Authorization", .str (braced "API_KEY"))]),
  ("limit", .num 25)]

/-! ## C1 — `config`-scoped references

The claim says a `{{config.…}}` reference walks the WorkflowDefinition
using only the path segments *after* `config`, so that
`{{config.workflow_name}}` yields the definition's name.  The source
walks the definition with the **full** part list (`for part in parts`
over all of `parts`), so `{{config.workflow_name}}` looks up
`workflow_config['config']['workflow_name']` and resolves to null on a
definition whose top-level keys are `workflow_name` and `steps`. -/

/-- C1 (counterexample): on a loaded definition named `test_wf`,
resolving the input `{{config.workflow_name}}` yields null — not the
definition's name — while a walk using only the remaining segment
`workflow_name` would have produced the name. -/
theorem c1_config_ref_counterexample :
    (resolveVal wfDefC1 (.obj []) (.str (braced "config.workflow_name"))).1 = Value.null ∧
    Value.null ≠ Value.str "test_wf" ∧
    walk wfDefC1 ["workflow_name"] = some (Value.str "test_wf") := by
  refine ⟨rfl, fun h => Value.noConfusion h, rfl⟩

/-- C1 (amended): a reference whose first path segment is `config` is
resolved by walking the WorkflowDefinition with the **full** part list
(the segment `config` included), independent of execution state. -/
theorem c1_config_ref_amended (wfConfig d d' : Value) (s : String)
    (href : isRefStr s = true) (hcfg : (refParts s).head? = some "config") :
    (resolveVal wfConfig d (.str s)).1 = (walk wfConfig (refParts s)).getD Value.null ∧
    resolveVal wfConfig d (.str s) = resolveVal wfConfig d' (.str s) := by
  cases hp : refParts s with
  | nil => simp [hp] at hcfg
  | cons p0 ps =>
    have hp0 : p0 = "config" := by simpa [hp] using hcfg
    subst hp0
    simp only [resolveVal, href, if_true, hp]
    cases hw : walk wfConfig ("config" :: ps) <;> simp [hw]

/-- Witness for `c1_config_ref_amended` at a concrete input. -/
theorem c1_config_ref_amended_witness :
    (resolveVal wfDefC1 (.obj []) (.str (braced "config.workflow_name"))).1 =
      (walk wfDefC1 (refParts (braced "config.workflow_name"))).getD Value.null ∧
    resolveVal wfDefC1 (.obj []) (.str (braced "config.workflow_name")) =
      resolveVal wfDefC1 (.arr []) (.str (braced "config.workflow_name")) :=
  c1_config_ref_amended wfDefC1 (.obj []) (.arr []) (braced "config.workflow_name")
    (by rfl) (by rfl)

/-! ## C5 — walk failures are per-input, null, and logged -/

/-- C5: resolving a step's inputs maps each input independently (so a
failure on one input cannot affect the others), and a reference whose
walk fails resolves to null with a warning event — in both the
state-data branch and the `config` branch. -/
theorem c5_walk_failure_null_and_warn (wfConfig data : Value)
    (inputs : List (String × Value)) :
    ((resolve_inputs wfConfig data inputs).1 =
      inputs.map fun kv => (kv.1, (resolveVal wfConfig data kv.2).1)) ∧
    (∀ kv ∈ inputs, ∀ e ∈ (resolveVal wfConfig data kv.2).2,
      e ∈ (resolve_inputs wfConfig data inputs).2) ∧
    (∀ s : String, isRefStr s = true →
      (refParts s).head? ≠ some "config" →
      walk data (refParts s) = none →
      resolveVal wfConfig data (.str s) =
        (Value.null, [LogEvent.refWarn (refPathOf s).asString])) ∧
    (∀ s : String, isRefStr s = true →
      (refParts s).head? = some "config" →
      walk wfConfig (refParts s) = none →
      resolveVal wfConfig data (.str s) =
        (Value.null, [LogEvent.configRefWarn (refPathOf s).asString])) := by
  refine ⟨?_, ?_, ?_, ?_⟩
  · induction inputs with
    | nil => rfl
    | cons kv rest ih => simp [resolve_inputs, ih]
  · intro kv hkv e he
    induction inputs with
    | nil => cases hkv
    | cons kv0 rest ih =>
      simp only [resolve_inputs, List.mem_append]
      rcases List.mem_cons.mp hkv with h | h
      · subst h
        exact Or.inl he
      · exact Or.inr (ih h)
  · intro s href hnc hw
    cases hp : refParts s with
    | nil =>
      have : walk data ([] : List String) = some data := rfl
      rw [hp] at hw
      simp [this] at hw
    | cons p0 ps =>
      have hp0 : p0 ≠ "config" := by
        intro h
        exact hnc (by simp [hp, h])
      rw [hp] at hw
      simp [resolveVal, href, hp, hp0, hw]
  · intro s href hc hw
    cases hp : refParts s with
    | nil => simp [hp] at hc
    | cons p0 ps =>
      have hp0 : p0 = "config" := by simpa [hp] using hc
      subst hp0
      rw [hp] at hw
      simp [resolveVal, href, hp, hw]

/-- Witness for `c5_walk_failure_null_and_warn`: one failing reference
among the inputs resolves to null with its warning, the other input is
untouched. -/
theorem c5_walk_failure_witness :
    (resolve_inputs wfDefC1 (.obj []) [("a", .str (braced "missing.output")), ("b", .num 7)]).1 =
      [("a", (resolveVal wfDefC1 (.obj []) (.str (braced "missing.output"))).1), ("b", .num 7)] ∧
    resolveVal wfDefC1 (.obj []) (.str (braced "missing.output")) =
      (Value.null, [LogEvent.refWarn (refPathOf (braced "missing.output")).asString]) := by
  constructor
  · exact (c5_walk_failure_null_and_warn wfDefC1 (.obj [])
      [("a", .str (braced "missing.output")), ("b", .num 7)]).1
  · exact (c5_walk_failure_null_and_warn wfDefC1 (.obj []) []).2.2.1
      (braced "missing.output") (by rfl) (by decide) (by rfl)

/-! ## C6 — only top-level input values are inspected -/

/-- C6: reference resolution looks only at the top level of each input
value: any non-reference value — including nested mappings and
sequences whose elements are reference-like strings — passes through
unchanged; resolution never recurses into nested structures. -/
theorem c6_no_recursion (wfConfig data : Value) :
    (∀ s : String, isRefStr s = false →
      resolveVal wfConfig data (.str s) = (.str s, [])) ∧
    (∀ l : List Value, resolveVal wfConfig data (.arr l) = (.arr l, [])) ∧
    (∀ entries : List (String × Value),
      resolveVal wfConfig data (.obj entries) = (.obj entries, [])) ∧
    (∀ n : Int, resolveVal wfConfig data (.num n) = (.num n, [])) ∧
    (∀ b : Bool, resolveVal wfConfig data (.bool b) = (.bool b, [])) ∧
    resolveVal wfConfig data .null = (.null, []) := by
  refine ⟨?_, fun l => rfl, fun entries => rfl, fun n => rfl, fun b => rfl, rfl⟩
  intro s hs
  simp [resolveVal, hs]

/-- Witness for `c6_no_recursion`: a list containing a reference-like
string passes through unresolved, and a plain string stays itself. -/
theorem c6_no_recursion_witness :
    resolveVal wfDefC1 (.obj [("a", .num 1)]) (.arr [.str (braced "a")]) =
      (.arr [.str (braced "a")], []) ∧
    resolveVal wfDefC1 (.obj [("a", .num 1)]) (.str "hello") = (.str "hello", []) :=
  ⟨(c6_no_recursion wfDefC1 (.obj [("a", .num 1)])).2.1 [.str (braced "a")],
   (c6_no_recursion wfDefC1 (.obj [("a", .num 1)])).1 "hello" (by rfl)⟩

/-! ## C2 — a `SubstitutionError` is *not* a recorded step failure

`_resolve_env_variables` is invoked **outside** the node's
`try/except`, so when the substituted text fails to parse the
`json.JSONDecodeError` propagates out of the node, out of
`graph.invoke`, and out of `execute()`: the run aborts with an
exception instead of recording a step failure and continuing. -/

/-- C2 (counterexample): with `API_KEY` bound to `ab"c`, the config
substitution of the single step fails and the failure raises out of
`execute()` — the run aborts; it is not recorded as a step failure. -/
theorem c2_substitution_error_counterexample :
    execute renvC2 wfDefC2 none = .error "SubstitutionError" := by rfl

/-- C2 (amended): a `SubstitutionError` during one step's tool-config
resolution is not caught by the node: it propagates out of the node
function and aborts the remainder of the run (no entry is added to
`state.errors` and no subsequent step executes). -/
theorem c2_substitution_error_amended (renv : RunEnv) (workflow_config : Value)
    (sc : List (String × Value)) (step_id agent_name : String) (es : EngineState)
    (inputEntries : List (String × Value)) (e : String)
    (hid : dictGet sc "id" = some (.str step_id))
    (hag : dictGet sc "agent" = some (.str agent_name))
    (hin : (dictGet sc "inputs").getD (.obj []) = .obj inputEntries)
    (hsub : resolve_env_variables renv.env
      (.obj [("tools", (dictGet sc "tools").getD (.arr []))]) = .error e) :
    node_function renv workflow_config (.obj sc) es = .error e ∧
    ∀ rest, run_steps renv workflow_config (.obj sc :: rest) es = .error e := by
  have hnode : node_function renv workflow_config (.obj sc) es = .error e := by
    simp only [node_function, hid, hag, hin, hsub]
  exact ⟨hnode, fun rest => by simp [run_steps, hnode]⟩

/-- Witness for `c2_substitution_error_amended` on the C2 fixture. -/
theorem c2_substitution_error_amended_witness :
    node_function renvC2 wfDefC2 (.obj scC2)
      { st := { workflow_name := .str "w", current_step := "", data := .obj [],
                errors := [], history := [] },
        agents := [], log := [] } = .error "SubstitutionError" ∧
    ∀ rest, run_steps renvC2 wfDefC2 (.obj scC2 :: rest)
      { st := { workflow_name := .str "w", current_step := "", data := .obj [],
                errors := [], history := [] },
        agents := [], log := [] } = .error "SubstitutionError" :=
  c2_substitution_error_amended renvC2 wfDefC2 scC2 "A" "AgentA" _ [] "SubstitutionError"
    (by rfl) (by rfl) (by rfl) (by rfl)

/-! ## C3 — a handler raise is one error entry, nothing else -/

/-- C3: when step `i`'s handler invocation raises, exactly one entry
`"<step.id>: <message>"` is appended to `state.errors`; `state.data`
gets no entry for the step, no history record is appended,
`current_step` is unchanged, the next step still executes on the
resulting state, and any reference into the failed step's output walks
to an absent value. -/
theorem c3_handler_failure (renv : RunEnv) (workflow_config : Value)
    (sc : List (String × Value)) (step_id agent_name msg : String)
    (es : EngineState) (inputEntries tcEntries : List (String × Value))
    (tools : Value) (agent' : AgentInst)
    (hid : dictGet sc "id" = some (.str step_id))
    (hag : dictGet sc "agent" = some (.str agent_name))
    (hin : (dictGet sc "inputs").getD (.obj []) = .obj inputEntries)
    (htools : resolve_env_variables renv.env
      (.obj [("tools", (dictGet sc "tools").getD (.arr []))]) = .ok (.obj tcEntries))
    (htc : dictGet tcEntries "tools" = some tools)
    (hexec : agentExecute renv.reasonFn
      (usedAgent renv.loadable es.agents agent_name).1
      (resolve_inputs workflow_config es.st.data inputEntries).1
      ((dictGet sc "instructions").getD (.str "")) tools = (.error msg, agent')) :
    ∃ es',
      node_function renv workflow_config (.obj sc) es = .ok es' ∧
      es'.st.errors = es.st.errors ++ [step_id ++ ": " ++ msg] ∧
      es'.st.data = es.st.data ∧
      es'.st.history = es.st.history ∧
      es'.st.current_step = es.st.current_step ∧
      (∀ rest, run_steps renv workflow_config (.obj sc :: rest) es =
        run_steps renv workflow_config rest es') ∧
      (index? es.st.data step_id = none →
        ∀ ps, walk es'.st.data (step_id :: ps) = none) := by
  have hnode : node_function renv workflow_config (.obj sc) es = .ok
      { st := { es.st with errors := es.st.errors ++ [step_id ++ ": " ++ msg] },
        agents := setAgent (usedAgent renv.loadable es.agents agent_name).2.1
          agent_name agent',
        log := es.log ++ [LogEvent.executingNode step_id agent_name] ++
          (usedAgent renv.loadable es.agents agent_name).2.2 ++
          (resolve_inputs workflow_config es.st.data inputEntries).2 ++
          [LogEvent.nodeError step_id msg] } := by
    simp only [node_function, hid, hag, hin, htools, htc, hexec]
  refine ⟨_, hnode, rfl, rfl, rfl, rfl, fun rest => by simp [run_steps, hnode], ?_⟩
  intro h ps
  simp [walk, h]

/-- Witness for `c3_handler_failure`: a concrete failing step. -/
theorem c3_handler_failure_witness :
    ∃ es',
      node_function
        { env := fun _ => none,
          loadable := fun _ => some fun _ _ _ => .error "boom",
          reasonFn := fun _ _ _ _ => "r" }
        wfDefC1 (.obj [("id", .str "s1"), ("agent", .str "Agent")])
        { st := { workflow_name := .str "test_wf", current_step := "", data := .obj [],
                  errors := [], history := [] },
          agents := [], log := [] } = .ok es' ∧
      es'.st.errors = [] ++ ["s1" ++ ": " ++ "boom"] ∧
      es'.st.data = Value.obj [] ∧
      es'.st.history = [] ∧
      es'.st.current_step = "" ∧
      (∀ rest, run_steps
        { env := fun _ => none,
          loadable := fun _ => some fun _ _ _ => .error "boom",
          reasonFn := fun _ _ _ _ => "r" } wfDefC1
        ((.obj [("id", .str "s1"), ("agent", .str "Agent")]) :: rest)
        { st := { workflow_name := .str "test_wf", current_step := "", data := .obj [],
                  errors := [], history := [] },
          agents := [], log := [] } =
        run_steps
        { env := fun _ => none,
          loadable := fun _ => some fun _ _ _ => .error "boom",
          reasonFn := fun _ _ _ _ => "r" } wfDefC1 rest es') ∧
      (index? (Value.obj []) "s1" = none →
        ∀ ps, walk es'.st.data ("s1" :: ps) = none) :=
  c3_handler_failure _ wfDefC1 [("id", .str "s1"), ("agent", .str "Agent")]
    "s1" "Agent" "boom" _ [] [("tools", .arr [])] (.arr []) _
    (by rfl) (by rfl) (by rfl) (by rfl) (by rfl) (by rfl)

/-! ## C4 — declared order, one history record per non-failed step -/

theorem execLog_append (a b : List LogEvent) :
    execLog (a ++ b) = execLog a ++ execLog b := by
  induction a with
  | nil => rfl
  | cons e rest ih => cases e <;> simp [execLog, ih]

theorem execLog_resolveVal (wfC d v : Value) :
    execLog (resolveVal wfC d v).2 = [] := by
  cases v with
  | str s =>
    by_cases h : isRefStr s = true
    · simp only [resolveVal, h, if_true]
      cases hp : refParts s with
      | nil => rfl
      | cons p0 ps =>
        by_cases hc : p0 = "config" <;>
          [cases hw : walk wfC (p0 :: ps); cases hw : walk d (p0 :: ps)] <;>
          simp [hc, hw, execLog]
    · simp [resolveVal, eq_false_of_ne_true h, execLog]
  | null => rfl
  | bool b => rfl
  | num n => rfl
  | arr l => rfl
  | obj l => rfl

theorem execLog_resolve_inputs (wfC d : Value) (inputs : List (String × Value)) :
    execLog (resolve_inputs wfC d inputs).2 = [] := by
  induction inputs with
  | nil => rfl
  | cons kv rest ih =>
    simp [resolve_inputs, execLog_append, ih, execLog_resolveVal]

theorem execLog_usedAgent (loadable : String → Option AgentAct)
    (agents : List (String × AgentInst)) (name : String) :
    execLog (usedAgent loadable agents name).2.2 = [] := by
  unfold usedAgent
  cases lookupAgent agents name
  · unfold load_agent
    cases loadable name <;> rfl
  · rfl

theorem dictGet_dictSet_ne (dd : List (String × Value)) (i k : String) (v : Value)
    (h : k ≠ i) : dictGet (dictSet dd i v) k = dictGet dd k := by
  induction dd with
  | nil => simp [dictSet, dictGet, Ne.symm h]
  | cons kv rest ih =>
    obtain ⟨k0, v0⟩ := kv
    by_cases h0 : k0 = i
    · subst h0
      simp [dictSet, dictGet, Ne.symm h]
    · simp [dictSet, h0, dictGet, ih]

theorem matchStrInv : ∀ (o : Option Value),
    (match o with | some (.str _) => true | _ => false) = true →
    ∃ s, o = some (.str s)
  | some (.str s), _ => ⟨s, rfl⟩
  | none, h => nomatch h
  | some .null, h => nomatch h
  | some (.bool _), h => nomatch h
  | some (.num _), h => nomatch h
  | some (.arr _), h => nomatch h
  | some (.obj _), h => nomatch h

theorem matchObjInv : ∀ (v : Value),
    (match v with | .obj _ => true | _ => false) = true → ∃ l, v = .obj l
  | .obj l, _ => ⟨l, rfl⟩
  | .null, h => nomatch h
  | .bool _, h => nomatch h
  | .num _, h => nomatch h
  | .str _, h => nomatch h
  | .arr _, h => nomatch h

theorem matchToolsInv : ∀ (r : Except String Value),
    (match r with
     | .ok (.obj tc) => (dictGet tc "tools").isSome
     | _ => false) = true →
    ∃ tc tools, r = .ok (.obj tc) ∧ dictGet tc "tools" = some tools
  | .ok (.obj tc), h => by
    obtain ⟨tools, ht⟩ := Option.isSome_iff_exists.mp h
    exact ⟨tc, tools, rfl, ht⟩
  | .error _, h => nomatch h
  | .ok .null, h => nomatch h
  | .ok (.bool _), h => nomatch h
  | .ok (.num _), h => nomatch h
  | .ok (.str _), h => nomatch h
  | .ok (.arr _), h => nomatch h

theorem stepWFb_obj {env : String → Option String} {sc : Value}
    (h : stepWFb env sc = true) : ∃ entries, sc = .obj entries := by
  cases sc with
  | obj entries => exact ⟨entries, rfl⟩
  | null => exact nomatch h
  | bool b => exact nomatch h
  | num n => exact nomatch h
  | str s => exact nomatch h
  | arr l => exact nomatch h

/-- One well-formed step neither raises nor skips: it logs its visit,
and either appends exactly one history record carrying its id (keeping
`errors`) or appends exactly one error entry (keeping `history`);
`state.data` stays a dict. -/
theorem node_wf_ok (renv : RunEnv) (workflow_config sc : Value) (es : EngineState)
    (h : stepWFb renv.env sc = true) (hdata : ∃ dd, es.st.data = .obj dd) :
    ∃ es',
      node_function renv workflow_config sc es = .ok es' ∧
      execLog es'.log = execLog es.log ++ [stepIdOf sc] ∧
      (∃ dd', es'.st.data = .obj dd') ∧
      (∀ k, k ≠ stepIdOf sc → index? es'.st.data k = index? es.st.data k) ∧
      ((es'.st.history.map HistoryRecord.step =
          es.st.history.map HistoryRecord.step ++ [stepIdOf sc] ∧
        es'.st.errors = es.st.errors) ∨
       (es'.st.history = es.st.history ∧
        es'.st.errors.length = es.st.errors.length + 1)) := by
  obtain ⟨dd, hdd⟩ := hdata
  obtain ⟨entries, rfl⟩ := stepWFb_obj h
  simp only [stepWFb, Bool.and_eq_true] at h
  obtain ⟨⟨⟨h1, h2⟩, h3⟩, h4⟩ := h
  obtain ⟨step_id, hid⟩ := matchStrInv _ h1
  obtain ⟨agent_name, hag⟩ := matchStrInv _ h2
  obtain ⟨inputEntries, hin⟩ := matchObjInv _ h3
  obtain ⟨tcEntries, tools, htl, htc⟩ := matchToolsInv _ h4
  cases hex : agentExecute renv.reasonFn
      (usedAgent renv.loadable es.agents agent_name).1
      (resolve_inputs workflow_config es.st.data inputEntries).1
      ((dictGet entries "instructions").getD (.str "")) tools with
  | mk r agent' =>
    rw [hdd] at hex
    cases r with
    | ok result =>
      refine ⟨EngineState.mk
        (WorkflowState.mk es.st.workflow_name step_id
          (.obj (dictSet dd step_id (.obj [("output", result)])))
          es.st.errors
          (es.st.history ++
            [HistoryRecord.mk step_id agent_name
              (resolve_inputs workflow_config (.obj dd) inputEntries).1 result]))
        (setAgent (usedAgent renv.loadable es.agents agent_name).2.1 agent_name agent')
        (es.log ++ [LogEvent.executingNode step_id agent_name] ++
          (usedAgent renv.loadable es.agents agent_name).2.2 ++
          (resolve_inputs workflow_config (.obj dd) inputEntries).2 ++
          [LogEvent.nodeCompleted step_id]), ?_, ?_, ?_, ?_, ?_⟩
      · simp only [node_function, hid, hag, hin, htl, htc, hdd, hex]
      · simp [execLog_append, execLog, execLog_usedAgent,
          execLog_resolve_inputs, stepIdOf, hid]
      · exact ⟨_, rfl⟩
      · intro k hk
        simp only [stepIdOf, hid] at hk
        rw [hdd]
        simp [index?, dictGet_dictSet_ne dd step_id k _ hk]
      · left
        exact ⟨by simp [stepIdOf, hid], rfl⟩
    | error msg =>
      refine ⟨EngineState.mk
        (WorkflowState.mk es.st.workflow_name es.st.current_step es.st.data
          (es.st.errors ++ [step_id ++ ": " ++ msg]) es.st.history)
        (setAgent (usedAgent renv.loadable es.agents agent_name).2.1 agent_name agent')
        (es.log ++ [LogEvent.executingNode step_id agent_name] ++
          (usedAgent renv.loadable es.agents agent_name).2.2 ++
          (resolve_inputs workflow_config (.obj dd) inputEntries).2 ++
          [LogEvent.nodeError step_id msg]), ?_, ?_, ?_, ?_, ?_⟩
      · simp only [node_function, hid, hag, hin, htl, htc, hdd, hex]
      · simp [execLog_append, execLog, execLog_usedAgent,
          execLog_resolve_inputs, stepIdOf, hid]
      · exact ⟨dd, hdd⟩
      · intro k _
        rfl
      · right
        exact ⟨rfl, by simp⟩

/-- C4: on well-formed steps the run never aborts: every declared step
is visited, in exactly the declared order (the `Executing node` log),
and there is a per-step success flag such that the final history ids
are exactly the ids of the flagged steps in declared relative order,
while each unflagged (failed) step contributed exactly one error entry
instead. -/
theorem c4_declared_order_and_history (renv : RunEnv) (workflow_config : Value) :
    ∀ (steps : List Value) (es : EngineState),
      (∀ sc ∈ steps, stepWFb renv.env sc = true) →
      (∃ dd, es.st.data = .obj dd) →
      ∃ (es' : EngineState) (flags : List Bool),
        run_steps renv workflow_config steps es = .ok es' ∧
        flags.length = steps.length ∧
        execLog es'.log = execLog es.log ++ steps.map stepIdOf ∧
        es'.st.history.map HistoryRecord.step =
          es.st.history.map HistoryRecord.step ++ selectIds steps flags ∧
        es'.st.errors.length = es.st.errors.length + flags.count false := by
  intro steps
  induction steps with
  | nil =>
    intro es _ _
    exact ⟨es, [], rfl, rfl, by simp, by simp [selectIds], by simp⟩
  | cons sc rest ih =>
    intro es hwf hdd
    obtain ⟨es1, hn, hlog, hdd1, _hpres, hcase⟩ :=
      node_wf_ok renv workflow_config sc es (hwf sc (by simp)) hdd
    obtain ⟨es', flags, hrun, hflen, hlog', hhist, herr⟩ :=
      ih es1 (fun s hs => hwf s (by simp [hs])) hdd1
    cases hcase with
    | inl hok =>
      refine ⟨es', true :: flags, ?_, ?_, ?_, ?_, ?_⟩
      · simp [run_steps, hn, hrun]
      · simp [hflen]
      · rw [hlog', hlog]
        simp
      · rw [hhist, hok.1]
        simp [selectIds]
      · rw [herr, hok.2]
        simp
    | inr hfail =>
      refine ⟨es', false :: flags, ?_, ?_, ?_, ?_, ?_⟩
      · simp [run_steps, hn, hrun]
      · simp [hflen]
      · rw [hlog', hlog]
        simp
      · rw [hhist, hfail.1]
        simp [selectIds]
      · rw [herr, hfail.2]
        simp [List.count_cons]
        omega

/-- Witness for `c4_declared_order_and_history`: a two-step workflow
whose first handler fails. -/
theorem c4_declared_order_and_history_witness :
    ∃ (es' : EngineState) (flags : List Bool),
      run_steps
        { env := fun _ => none,
          loadable := fun n => if n = "AgentA" then some fun _ _ _ => .error "boom"
            else some fun _ _ _ => .ok .null,
          reasonFn := fun _ _ _ _ => "r" }
        wfDefC1
        [.obj [("id", .str "A"), ("agent", .str "AgentA")],
         .obj [("id", .str "B"), ("agent", .str "AgentB")]]
        { st := { workflow_name := .str "w", current_step := "", data := .obj [],
                  errors := [], history := [] },
          agents := [], log := [] } = .ok es' ∧
      flags.length = 2 ∧
      execLog es'.log = execLog ([] : List LogEvent) ++ ["A", "B"] ∧
      es'.st.history.map HistoryRecord.step =
        ([] : List String) ++ selectIds
          [.obj [("id", .str "A"), ("agent", .str "AgentA")],
           .obj [("id", .str "B"), ("agent", .str "AgentB")]] flags ∧
      es'.st.errors.length = 0 + flags.count false := by
  obtain ⟨es', flags, h1, h2, h3, h4, h5⟩ :=
    c4_declared_order_and_history
      { env := fun _ => none,
        loadable := fun n => if n = "AgentA" then some fun _ _ _ => .error "boom"
          else some fun _ _ _ => .ok .null,
        reasonFn := fun _ _ _ _ => "r" }
      wfDefC1
      [.obj [("id", .str "A"), ("agent", .str "AgentA")],
       .obj [("id", .str "B"), ("agent", .str "AgentB")]]
      { st := { workflow_name := .str "w", current_step := "", data := .obj [],
                errors := [], history := [] },
        agents := [], log := [] }
      (by
        intro sc hsc
        rcases List.mem_cons.mp hsc with rfl | hsc
        · rfl
        · rcases List.mem_cons.mp hsc with rfl | hsc
          · rfl
          · cases hsc)
      ⟨[], rfl⟩
  exact ⟨es', flags, h1, h2, h3, h4, h5⟩

/-! ## C9 — registry fail-over and instance reuse -/

theorem lookupAgent_append_self (agents : List (String × AgentInst)) (name : String)
    (a : AgentInst) (h : lookupAgent agents name = none) :
    lookupAgent (agents ++ [(name, a)]) name = some a := by
  induction agents with
  | nil => simp [lookupAgent]
  | cons kv rest ih =>
    obtain ⟨k0, a0⟩ := kv
    by_cases h0 : k0 = name
    · subst h0
      simp [lookupAgent] at h
    · simp only [lookupAgent, h0, if_false] at h
      simp only [List.cons_append, lookupAgent, h0, if_false]
      exact ih h

/-- C9: an unresolvable handler name never raises — `_load_agent`
returns a fresh generic pass-through instance (whose action always
succeeds, echoing its inputs) and logs the failure; the node caches the
instance under that name; and when the cache already holds an instance
for a name, the node uses that very instance and loads nothing new. -/
theorem c9_registry_failover_and_reuse (loadable : String → Option AgentAct)
    (agents : List (String × AgentInst)) (name : String) :
    (loadable name = none →
      load_agent loadable name =
        (AgentInst.mk name (baseAct name) [], [LogEvent.loadFail name]) ∧
      ∀ reasoning inputs tools,
        baseAct name reasoning inputs tools =
          .ok (.obj [("status", .str "completed"), ("reasoning", .str reasoning),
                     ("inputs_processed", .obj inputs), ("agent", .str name)])) ∧
    (lookupAgent agents name = none → loadable name = none →
      usedAgent loadable agents name =
        (AgentInst.mk name (baseAct name) [],
         agents ++ [(name, AgentInst.mk name (baseAct name) [])],
         [LogEvent.loadFail name]) ∧
      lookupAgent (usedAgent loadable agents name).2.1 name =
        some (AgentInst.mk name (baseAct name) [])) ∧
    (∀ a, lookupAgent agents name = some a →
      usedAgent loadable agents name = (a, agents, [])) := by
  refine ⟨?_, ?_, ?_⟩
  · intro h
    exact ⟨by simp [load_agent, h], fun reasoning inputs tools => rfl⟩
  · intro hmiss h
    have hu : usedAgent loadable agents name =
        (AgentInst.mk name (baseAct name) [],
         agents ++ [(name, AgentInst.mk name (baseAct name) [])],
         [LogEvent.loadFail name]) := by
      simp [usedAgent, hmiss, load_agent, h]
    exact ⟨hu, by rw [hu]; exact lookupAgent_append_self agents name _ hmiss⟩
  · intro a ha
    simp [usedAgent, ha]

/-- Witness for `c9_registry_failover_and_reuse`: a name nothing can
load, and a cache that already holds an instance. -/
theorem c9_registry_failover_and_reuse_witness :
    (load_agent (fun _ => none) "Ghost" =
      (AgentInst.mk "Ghost" (baseAct "Ghost") [], [LogEvent.loadFail "Ghost"]) ∧
     baseAct "Ghost" "r" [("x", .num 1)] (.arr []) =
      .ok (.obj [("status", .str "completed"), ("reasoning", .str "r"),
                 ("inputs_processed", .obj [("x", .num 1)]), ("agent", .str "Ghost")])) ∧
    (usedAgent (fun _ => none) [] "Ghost" =
      (AgentInst.mk "Ghost" (baseAct "Ghost") [],
       [("Ghost", AgentInst.mk "Ghost" (baseAct "Ghost") [])],
       [LogEvent.loadFail "Ghost"])) ∧
    (usedAgent (fun _ => none)
      [("Ghost", AgentInst.mk "Ghost" (baseAct "Ghost") [])] "Ghost" =
      (AgentInst.mk "Ghost" (baseAct "Ghost") [],
       [("Ghost", AgentInst.mk "Ghost" (baseAct "Ghost") [])], [])) := by
  refine ⟨?_, ?_, ?_⟩
  · have h := (c9_registry_failover_and_reuse (fun _ => none) [] "Ghost").1 rfl
    exact ⟨h.1, h.2 "r" [("x", .num 1)] (.arr [])⟩
  · exact (((c9_registry_failover_and_reuse (fun _ => none) [] "Ghost").2.1) rfl rfl).1
  · exact (c9_registry_failover_and_reuse (fun _ => none)
      [("Ghost", AgentInst.mk "Ghost" (baseAct "Ghost") [])] "Ghost").2.2 _ rfl

/-! ## C10 — `execute(initial_data)` seeds the state -/

/-- A well-formed run keeps `state.data` a dict and never touches the
entries whose keys are not step ids. -/
theorem run_wf_preserves (renv : RunEnv) (workflow_config : Value) :
    ∀ (steps : List Value) (es : EngineState),
      (∀ sc ∈ steps, stepWFb renv.env sc = true) →
      (∃ dd, es.st.data = .obj dd) →
      ∃ es', run_steps renv workflow_config steps es = .ok es' ∧
        (∃ dd', es'.st.data = .obj dd') ∧
        ∀ k, k ∉ steps.map stepIdOf → index? es'.st.data k = index? es.st.data k := by
  intro steps
  induction steps with
  | nil =>
    intro es _ _
    exact ⟨es, rfl, by assumption, fun k _ => rfl⟩
  | cons sc rest ih =>
    intro es hwf hdd
    obtain ⟨es1, hn, _, hdd1, hpres, _⟩ :=
      node_wf_ok renv workflow_config sc es (hwf sc (by simp)) hdd
    obtain ⟨es', hrun, hdd', hpres'⟩ :=
      ih es1 (fun s hs => hwf s (by simp [hs])) hdd1
    refine ⟨es', by simp [run_steps, hn, hrun], hdd', ?_⟩
    intro k hk
    simp only [List.map_cons, List.mem_cons, not_or] at hk
    rw [hpres' k hk.2, hpres k hk.1]

/-- C10: `execute` seeds `state.data` with the caller's mapping (the
empty dict when omitted or falsy): a reference whose first segment is
a seeded key already resolves against the seeded value before any step
runs, the run leaves seeded entries whose keys are not step ids intact
in the returned result's `data`, and omitting `initial_data` is the
same as passing an empty mapping. -/
theorem c10_initial_data_seeding (renv : RunEnv) (workflow_config : Value)
    (d : List (String × Value)) (steps : List Value) (wn : Value)
    (hb : build_graph workflow_config = .ok steps)
    (hwn : index? workflow_config "workflow_name" = some wn)
    (hwf : ∀ sc ∈ steps, stepWFb renv.env sc = true)
    (hd : d ≠ []) :
    (∀ k v ps, dictGet d k = some v →
      walk (Value.obj d) (k :: ps) = walk v ps) ∧
    (∀ s k v, isRefStr s = true → refParts s = [k] → k ≠ "config" →
      dictGet d k = some v →
      (resolveVal workflow_config (.obj d) (.str s)).1 = v) ∧
    (∃ r, execute renv workflow_config (some (.obj d)) = .ok r ∧
      ∀ k, k ∉ steps.map stepIdOf → index? r.data k = dictGet d k) ∧
    execute renv workflow_config none = execute renv workflow_config (some (.obj [])) := by
  refine ⟨?_, ?_, ?_, ?_⟩
  · intro k v ps hk
    simp [walk, index?, hk]
  · intro s k v href hp hkc hk
    simp [resolveVal, href, hp, hkc, walk, index?, hk]
  · obtain ⟨es', hrun, _, hpres⟩ := run_wf_preserves renv workflow_config steps
      { st := { workflow_name := wn, current_step := "", data := .obj d,
                errors := [], history := [] },
        agents := [], log := [] }
      hwf ⟨d, rfl⟩
    have hseed : (if pyTruthy (Value.obj d) then Value.obj d else Value.obj []) =
        Value.obj d := by
      simp [pyTruthy, hd]
    refine ⟨RunResult.mk es'.st.errors.isEmpty es'.st.data es'.st.errors es'.st.history,
      ?_, ?_⟩
    · simp only [execute, hb, hwn, hseed, hrun]
    · intro k hk
      have := hpres k hk
      simpa [index?] using this
  · rfl

/-- Witness for `c10_initial_data_seeding` on a one-step workflow with
seed mapping `{seed: 5}`. -/
theorem c10_initial_data_seeding_witness :
    (∀ k v ps, dictGet [("seed", Value.num 5)] k = some v →
      walk (Value.obj [("seed", Value.num 5)]) (k :: ps) = walk v ps) ∧
    (∀ s k v, isRefStr s = true → refParts s = [k] → k ≠ "config" →
      dictGet [("seed", Value.num 5)] k = some v →
      (resolveVal wfDefC1 (.obj [("seed", Value.num 5)]) (.str s)).1 = v) ∧
    (∃ r, execute renvW wfDefC1 (some (.obj [("seed", Value.num 5)])) = .ok r ∧
      ∀ k, k ∉ [Value.obj [("id", .str "s1"), ("agent", .str "Agent")]].map stepIdOf →
        index? r.data k = dictGet [("seed", Value.num 5)] k) ∧
    execute renvW wfDefC1 none = execute renvW wfDefC1 (some (.obj [])) :=
  c10_initial_data_seeding renvW wfDefC1 [("seed", Value.num 5)]
    [Value.obj [("id", .str "s1"), ("agent", .str "Agent")]] (.str "test_wf")
    (by rfl) (by rfl)
    (by
      intro sc hsc
      rcases List.mem_cons.mp hsc with rfl | h
      · rfl
      · cases h)
    (by simp)

/-! ## Round-trip of the serializer and parser: decimal numbers -/

theorem valAcc_nil (a : Nat) : valAcc a [] = a := rfl

theorem valAcc_cons (a : Nat) (c : Char) (l : List Char) :
    valAcc a (c :: l) = valAcc (a * 10 + (c.toNat - 48)) l := rfl

theorem valAcc_append (a : Nat) (l1 l2 : List Char) :
    valAcc a (l1 ++ l2) = valAcc (valAcc a l1) l2 := by
  induction l1 generalizing a with
  | nil => rfl
  | cons c l ih => exact ih (a * 10 + (c.toNat - 48))

theorem numBoundary_head (c : Char) (t : List Char) (h : numBoundary (c :: t) = true) :
    c.isDigit = false ∧ c ≠ '.' ∧ c ≠ 'e' ∧ c ≠ 'E' := by
  simp only [numBoundary, Bool.and_eq_true, Bool.not_eq_true'] at h
  obtain ⟨⟨⟨h1, h2⟩, h3⟩, h4⟩ := h
  refine ⟨h1, ?_, ?_, ?_⟩ <;> intro hc <;> subst hc <;> simp_all

theorem parseDigits_spec (l : List Char) : ∀ (r : List Char) (a : Nat),
    (∀ c ∈ l, c.isDigit = true) → numBoundary r = true →
    parseDigits (l ++ r) a = (valAcc a l, r) := by
  induction l with
  | nil =>
    intro r a _ hr
    cases r with
    | nil => rfl
    | cons c t =>
      have h := (numBoundary_head c t hr).1
      show parseDigits (c :: t) a = (a, c :: t)
      unfold parseDigits
      rw [h]
      simp
  | cons c l ih =>
    intro r a hl hr
    have hc := hl c (List.mem_cons_self c l)
    have ihh := ih r (a * 10 + (c.toNat - 48))
      (fun x hx => hl x (List.mem_cons_of_mem c hx)) hr
    show parseDigits (c :: (l ++ r)) a = (valAcc a (c :: l), r)
    conv_lhs => rw [parseDigits]
    rw [hc]
    simp only [if_true]
    rw [ihh, valAcc_cons]

theorem digitChar_spec (d : Nat) (hd : d < 10) :
    (digitChar d).isDigit = true ∧ (digitChar d).toNat = 48 + d ∧
      (d ≠ 0 → digitChar d ≠ '0') := by
  interval_cases d <;> exact ⟨by decide, by decide, by decide⟩

theorem natToCharsFuel_zero (f : Nat) (acc : List Char) (hf : 0 < f) :
    natToCharsFuel f 0 acc = acc := by
  cases f with
  | zero => omega
  | succ g => simp [natToCharsFuel]

theorem natToCharsFuel_spec : ∀ (fuel : Nat), ∀ (n : Nat) (acc : List Char),
    0 < n → n < fuel →
    ∃ l, natToCharsFuel fuel n acc = l ++ acc ∧ l ≠ [] ∧
      (∀ c ∈ l, c.isDigit = true) ∧
      (∀ c, l.head? = some c → c ≠ '0') ∧
      ∀ a, valAcc a l = a * 10 ^ l.length + n := by
  intro fuel
  induction fuel with
  | zero => intro n acc h1 h2; omega
  | succ f ih =>
    intro n acc h1 h2
    have hstep : natToCharsFuel (f + 1) n acc =
        natToCharsFuel f (n / 10) (digitChar (n % 10) :: acc) := by
      simp only [natToCharsFuel]
      rw [if_neg (by omega)]
    obtain ⟨hdig1, htn1, hne1⟩ := digitChar_spec (n % 10) (Nat.mod_lt n (by omega))
    by_cases hn : n < 10
    · have hmod : n % 10 = n := Nat.mod_eq_of_lt hn
      have hdiv : n / 10 = 0 := Nat.div_eq_of_lt hn
      refine ⟨[digitChar (n % 10)], ?_, by simp, ?_, ?_, ?_⟩
      · rw [hstep, hdiv, natToCharsFuel_zero f _ (by omega)]
        rfl
      · intro c hc
        simp only [List.mem_singleton] at hc
        subst hc
        exact hdig1
      · intro c hc
        simp only [List.head?_cons, Option.some.injEq] at hc
        subst hc
        exact hne1 (by omega)
      · intro a
        rw [valAcc_cons, valAcc_nil, htn1]
        simp only [List.length_singleton, pow_one]
        omega
    · have hdivpos : 0 < n / 10 := Nat.div_pos (by omega) (by omega)
      have hdivlt : n / 10 < f := by omega
      obtain ⟨l', heq, hne, hdig, hhd, hval⟩ :=
        ih (n / 10) (digitChar (n % 10) :: acc) hdivpos hdivlt
      refine ⟨l' ++ [digitChar (n % 10)], ?_, by simp, ?_, ?_, ?_⟩
      · rw [hstep, heq]
        simp
      · intro c hc
        rcases List.mem_append.mp hc with h | h
        · exact hdig c h
        · simp only [List.mem_singleton] at h
          subst h
          exact hdig1
      · intro c hc
        rw [List.head?_append_of_ne_nil _ hne] at hc
        exact hhd c hc
      · intro a
        rw [valAcc_append, hval a, valAcc_cons, valAcc_nil, htn1]
        have hlen : (l' ++ [digitChar (n % 10)]).length = l'.length + 1 := by simp
        rw [hlen, pow_succ]
        have := Nat.div_add_mod n 10
        ring_nf
        omega

theorem natToChars_spec (n : Nat) :
    ∃ l, natToChars n = l ∧ l ≠ [] ∧ (∀ c ∈ l, c.isDigit = true) ∧
      (0 < n → ∀ c, l.head? = some c → c ≠ '0') ∧
      valAcc 0 l = n ∧ (n = 0 → l = ['0']) := by
  by_cases h : n = 0
  · subst h
    refine ⟨['0'], rfl, by simp, ?_, by omega, by decide, fun _ => rfl⟩
    intro c hc
    simp only [List.mem_singleton] at hc
    subst hc
    decide
  · obtain ⟨l, heq, hne, hdig, hhd, hval⟩ :=
      natToCharsFuel_spec (n + 1) n [] (by omega) (by omega)
    refine ⟨l, ?_, hne, hdig, fun _ => hhd, ?_, fun h0 => absurd h0 h⟩
    · rw [natToChars, if_neg h]
      simpa using heq
    · have := hval 0
      simpa using this

theorem isDigit_facts (c : Char) (h : c.isDigit = true) :
    jsonWs c = false ∧ c ≠ '-' ∧ c ≠ '"' ∧ c ≠ '[' ∧ c ≠ '{' ∧ c ≠ ']' ∧ c ≠ '}' ∧
      c ≠ ',' ∧ c ≠ 'n' ∧ c ≠ 't' ∧ c ≠ 'f' := by
  have hws : jsonWs c = false := by
    cases hws : jsonWs c
    · rfl
    · simp only [jsonWs, Bool.or_eq_true, decide_eq_true_eq] at hws
      rcases hws with ((h1 | h1) | h1) | h1 <;> subst h1 <;> exact absurd h (by decide)
  refine ⟨hws, ?_, ?_, ?_, ?_, ?_, ?_, ?_, ?_, ?_, ?_⟩ <;>
    intro hc <;> subst hc <;> exact absurd h (by decide)

theorem floatFollows_of_numBoundary (x : List Char) (hx : numBoundary x = true) :
    floatFollows x = false := by
  cases x with
  | nil => rfl
  | cons c t =>
    obtain ⟨_, h2, h3, h4⟩ := numBoundary_head c t hx
    simp [floatFollows, h2, h3, h4]

theorem parseNumberNat_cons (c : Char) (rest : List Char) :
    parseNumberNat (c :: rest) =
      if c = '0' then some (0, rest)
      else if c.isDigit then some (parseDigits rest (c.toNat - 48))
      else none := rfl

theorem parseNumber_cons (c : Char) (rest : List Char) :
    parseNumber (c :: rest) =
      if c = '-' then
        match parseNumberNat rest with
        | some (n, r) => if floatFollows r then none else some (.num (-(n : Int)), r)
        | none => none
      else
        match parseNumberNat (c :: rest) with
        | some (n, r) => if floatFollows r then none else some (.num ((n : Int)), r)
        | none => none := rfl

theorem parseNumberNat_natToChars (k : Nat) (r : List Char)
    (hb : numBoundary r = true) :
    parseNumberNat (natToChars k ++ r) = some (k, r) := by
  obtain ⟨l, heq, hne, hdig, hhd, hval, hzero⟩ := natToChars_spec k
  by_cases hk : k = 0
  · subst hk
    rw [heq, hzero rfl]
    show parseNumberNat ('0' :: r) = some (0, r)
    rw [parseNumberNat_cons, if_pos rfl]
  · cases l0 : l with
    | nil => exact absurd l0 hne
    | cons c t =>
      have hc : c.isDigit = true := hdig c (by simp [l0])
      have hc0 : c ≠ '0' := hhd (by omega) c (by simp [l0])
      have htd : ∀ x ∈ t, x.isDigit = true := fun x hx => hdig x (by simp [l0, hx])
      rw [heq, l0]
      show parseNumberNat (c :: (t ++ r)) = some (k, r)
      rw [parseNumberNat_cons, if_neg hc0, if_pos hc, parseDigits_spec t r _ htd hb]
      have hvk : valAcc (c.toNat - 48) t = k := by
        rw [l0, valAcc_cons] at hval
        simpa using hval
      rw [hvk]

theorem natToChars_head_not_dash (k : Nat) (c : Char) (t : List Char)
    (hl : natToChars k = c :: t) : c.isDigit = true := by
  obtain ⟨l, heq, hne, hdig, _, _, _⟩ := natToChars_spec k
  rw [heq] at hl
  exact hdig c (by rw [hl]; simp)

theorem parseNumber_intToChars (n : Int) (r : List Char)
    (hb : numBoundary r = true) :
    parseNumber (intToChars n ++ r) = some (.num n, r) := by
  have hff := floatFollows_of_numBoundary r hb
  cases n with
  | ofNat m =>
    have hn : intToChars (Int.ofNat m) = natToChars m := rfl
    rw [hn]
    cases hl : natToChars m with
    | nil =>
      obtain ⟨l, heq, hne, _, _, _, _⟩ := natToChars_spec m
      rw [heq] at hl
      exact absurd hl hne
    | cons c t =>
      have hcd : c.isDigit = true := natToChars_head_not_dash m c t hl
      have hcm2 : c ≠ '-' := by
        intro hcc
        subst hcc
        exact absurd hcd (by decide)
      have hpn : parseNumberNat (c :: (t ++ r)) = some (m, r) := by
        have h0 := parseNumberNat_natToChars m r hb
        rw [hl] at h0
        exact h0
      show parseNumber (c :: (t ++ r)) = some (.num (Int.ofNat m), r)
      rw [parseNumber_cons, if_neg hcm2, hpn]
      show (if floatFollows r = true then none
        else some (Value.num ((m : Nat) : Int), r)) = some (.num (Int.ofNat m), r)
      rw [hff]
      rfl
  | negSucc m =>
    have hn : intToChars (Int.negSucc m) = '-' :: natToChars (m + 1) := rfl
    rw [hn]
    show parseNumber ('-' :: (natToChars (m + 1) ++ r)) = some (.num (Int.negSucc m), r)
    rw [parseNumber_cons, if_pos rfl, parseNumberNat_natToChars (m + 1) r hb]
    show (if floatFollows r = true then none
      else some (Value.num (-((m + 1 : Nat) : Int)), r)) = some (.num (Int.negSucc m), r)
    rw [hff]
    have hval : -(((m + 1 : Nat)) : Int) = Int.negSucc m := by
      rw [Int.negSucc_eq]
      push_cast
      ring
    simp only [Bool.false_eq_true, if_false, hval]

/-! ## Round-trip of the serializer and parser: string literals -/

theorem char_valid_nat (c : Char) :
    c.toNat < 0xd800 ∨ (0xdfff < c.toNat ∧ c.toNat < 0x110000) := by
  rcases c.valid with h | ⟨h1, h2⟩
  · exact Or.inl h
  · exact Or.inr ⟨h1, h2⟩

theorem hexVal?_hexChar (k : Nat) (hk : k < 16) : hexVal? (hexChar k) = some k := by
  interval_cases k <;> decide

theorem hex4_hexQuad (n : Nat) (h : n < 0x10000) :
    hex4 (hexChar (n / 4096 % 16)) (hexChar (n / 256 % 16)) (hexChar (n / 16 % 16))
      (hexChar (n % 16)) = some n := by
  unfold hex4
  simp only [hexVal?_hexChar (n / 4096 % 16) (Nat.mod_lt _ (by omega)),
    hexVal?_hexChar (n / 256 % 16) (Nat.mod_lt _ (by omega)),
    hexVal?_hexChar (n / 16 % 16) (Nat.mod_lt _ (by omega)),
    hexVal?_hexChar (n % 16) (Nat.mod_lt _ (by omega))]
  congr 1
  omega

theorem psbF_succ (fuel : Nat) (c : Char) (rest : List Char) :
    parseStringBodyFuel (fuel + 1) (c :: rest) =
      (if c = '"' then some ([], rest)
      else if c = '\\' then
        match escDecode rest with
        | none => none
        | some (d, w) => (parseStringBodyFuel fuel w).map fun pr => (d :: pr.1, pr.2)
      else if c.toNat < 0x20 then none
      else (parseStringBodyFuel fuel rest).map fun pr => (c :: pr.1, pr.2)) := by
  conv_lhs => rw [parseStringBodyFuel]

theorem escUnicode_cons (a b c d : Char) (r : List Char) :
    escUnicode (a :: b :: c :: d :: r) =
      (match hex4 a b c d with
      | none => none
      | some n =>
        if n < 0xd800 then some (Char.ofNat n, r)
        else if n < 0xdc00 then escSurrogatePair n r
        else if n < 0xe000 then none
        else some (Char.ofNat n, r)) := rfl

theorem escSurrogatePair_cons (n : Nat) (s1 s2 a b c d : Char) (r : List Char) :
    escSurrogatePair n (s1 :: s2 :: a :: b :: c :: d :: r) =
      (if s1 = '\\' then
        if s2 = 'u' then
          match hex4 a b c d with
          | none => none
          | some m =>
            if 0xdc00 ≤ m ∧ m < 0xe000 then
              some (Char.ofNat (0x10000 + 0x400 * (n - 0xd800) + (m - 0xdc00)), r)
            else none
        else none
      else none) := rfl

theorem escDecode_u (r : List Char) : escDecode ('u' :: r) = escUnicode r := rfl

theorem escDecode_quad_bmp (n : Nat) (h : n < 0xd800 ∨ (0xe000 ≤ n ∧ n < 0x10000))
    (w : List Char) :
    escDecode ('u' :: hexChar (n / 4096 % 16) :: hexChar (n / 256 % 16) ::
      hexChar (n / 16 % 16) :: hexChar (n % 16) :: w) = some (Char.ofNat n, w) := by
  rw [escDecode_u, escUnicode_cons]
  simp only [hex4_hexQuad n (by omega)]
  rcases h with h | ⟨h1, h2⟩
  · rw [if_pos h]
  · rw [if_neg (by omega), if_neg (by omega), if_neg (by omega)]

theorem escDecode_quad_pair (n : Nat) (hn1 : 0x10000 ≤ n) (hn2 : n < 0x110000)
    (w : List Char) :
    escDecode ('u' :: hexChar ((0xd800 + (n - 0x10000) / 0x400) / 4096 % 16) ::
      hexChar ((0xd800 + (n - 0x10000) / 0x400) / 256 % 16) ::
      hexChar ((0xd800 + (n - 0x10000) / 0x400) / 16 % 16) ::
      hexChar ((0xd800 + (n - 0x10000) / 0x400) % 16) ::
      ('\\' :: 'u' :: hexChar ((0xdc00 + (n - 0x10000) % 0x400) / 4096 % 16) ::
        hexChar ((0xdc00 + (n - 0x10000) % 0x400) / 256 % 16) ::
        hexChar ((0xdc00 + (n - 0x10000) % 0x400) / 16 % 16) ::
        hexChar ((0xdc00 + (n - 0x10000) % 0x400) % 16) :: w)) =
      some (Char.ofNat n, w) := by
  rw [escDecode_u, escUnicode_cons]
  simp only [hex4_hexQuad (0xd800 + (n - 0x10000) / 0x400) (by omega)]
  rw [if_neg (by omega), if_pos (by omega)]
  rw [escSurrogatePair_cons, if_pos rfl, if_pos rfl]
  simp only [hex4_hexQuad (0xdc00 + (n - 0x10000) % 0x400) (by omega)]
  rw [if_pos (by omega : 0xdc00 ≤ 0xdc00 + (n - 0x10000) % 0x400 ∧
    0xdc00 + (n - 0x10000) % 0x400 < 0xe000)]
  have harith : 0x10000 + 0x400 * ((0xd800 + (n - 0x10000) / 0x400) - 0xd800) +
      ((0xdc00 + (n - 0x10000) % 0x400) - 0xdc00) = n := by omega
  rw [harith]

theorem psbF_backslash (fuel : Nat) (rest : List Char) (d : Char) (w : List Char)
    (h : escDecode rest = some (d, w)) :
    parseStringBodyFuel (fuel + 1) ('\\' :: rest) =
      (parseStringBodyFuel fuel w).map fun pr => (d :: pr.1, pr.2) := by
  rw [psbF_succ, if_neg (by decide), if_pos rfl]
  simp only [h]

theorem psbF_escChar (fuel : Nat) (c : Char) (w : List Char) :
    parseStringBodyFuel (fuel + 1) (escChar c ++ w) =
      (parseStringBodyFuel fuel w).map fun pr => (c :: pr.1, pr.2) := by
  by_cases h1 : c = '"'
  · subst h1; exact psbF_backslash fuel ('"' :: w) '"' w rfl
  by_cases h2 : c = '\\'
  · subst h2; exact psbF_backslash fuel ('\\' :: w) '\\' w rfl
  by_cases h3 : c = '\n'
  · subst h3; exact psbF_backslash fuel ('n' :: w) '\n' w rfl
  by_cases h4 : c = '\t'
  · subst h4; exact psbF_backslash fuel ('t' :: w) '\t' w rfl
  by_cases h5 : c = '\r'
  · subst h5; exact psbF_backslash fuel ('r' :: w) '\r' w rfl
  by_cases h6 : c.toNat = 8
  · have hc : c = '\x08' := by rw [← Char.ofNat_toNat c, h6]
    subst hc
    exact psbF_backslash fuel ('b' :: w) '\x08' w rfl
  by_cases h7 : c.toNat = 12
  · have hc : c = '\x0c' := by rw [← Char.ofNat_toNat c, h7]
    subst hc
    exact psbF_backslash fuel ('f' :: w) '\x0c' w rfl
  by_cases h8 : c.toNat < 0x20
  · have he : escChar c = hexQuad c.toNat := by
      unfold escChar
      rw [if_neg h1, if_neg h2, if_neg h3, if_neg h4, if_neg h5, if_neg h6, if_neg h7,
        if_pos h8]
    rw [he]
    have hx := psbF_backslash fuel _ (Char.ofNat c.toNat) w
      (escDecode_quad_bmp c.toNat (Or.inl (by omega)) w)
    rw [Char.ofNat_toNat] at hx
    exact hx
  by_cases h9 : c.toNat < 0x7f
  · have he : escChar c = [c] := by
      unfold escChar
      rw [if_neg h1, if_neg h2, if_neg h3, if_neg h4, if_neg h5, if_neg h6, if_neg h7,
        if_neg h8, if_pos h9]
    rw [he]
    show parseStringBodyFuel (fuel + 1) (c :: w) = _
    rw [psbF_succ, if_neg h1, if_neg h2, if_neg h8]
  by_cases h10 : c.toNat < 0x10000
  · have he : escChar c = hexQuad c.toNat := by
      unfold escChar
      rw [if_neg h1, if_neg h2, if_neg h3, if_neg h4, if_neg h5, if_neg h6, if_neg h7,
        if_neg h8, if_neg h9, if_pos h10]
    rw [he]
    have hx := psbF_backslash fuel _ (Char.ofNat c.toNat) w
      (escDecode_quad_bmp c.toNat (by have := char_valid_nat c; omega) w)
    rw [Char.ofNat_toNat] at hx
    exact hx
  · have he : escChar c = hexQuad (0xd800 + (c.toNat - 0x10000) / 0x400) ++
        hexQuad (0xdc00 + (c.toNat - 0x10000) % 0x400) := by
      unfold escChar
      rw [if_neg h1, if_neg h2, if_neg h3, if_neg h4, if_neg h5, if_neg h6, if_neg h7,
        if_neg h8, if_neg h9, if_neg h10]
    rw [he]
    have hx := psbF_backslash fuel _ (Char.ofNat c.toNat) w
      (escDecode_quad_pair c.toNat (by omega) (by have := char_valid_nat c; omega) w)
    rw [Char.ofNat_toNat] at hx
    exact hx

theorem psbF_escChars (l : List Char) : ∀ (m : Nat) (rest : List Char),
    parseStringBodyFuel (l.length + m + 1) (escChars l ++ '"' :: rest) =
      some (l, rest) := by
  induction l with
  | nil =>
    intro m rest
    rw [List.length_nil, Nat.zero_add]
    show parseStringBodyFuel (m + 1) ('"' :: rest) = some ([], rest)
    rw [psbF_succ, if_pos rfl]
  | cons c l ih =>
    intro m rest
    rw [List.length_cons]
    have hl : l.length + 1 + m + 1 = l.length + m + 1 + 1 := by omega
    rw [hl, escChars, List.append_assoc, psbF_escChar, ih]
    rfl

theorem escChar_length_pos (c : Char) : 1 ≤ (escChar c).length := by
  rw [escChar]
  split_ifs <;> simp [hexQuad]

theorem escChars_length_ge (l : List Char) : l.length ≤ (escChars l).length := by
  induction l with
  | nil => simp [escChars]
  | cons c l ih =>
    rw [escChars, List.length_cons, List.length_append]
    have := escChar_length_pos c
    omega

theorem list_asString_data (s : String) : s.data.asString = s := rfl

theorem take_cons_ne (c : Char) (l : List Char) (k : Nat) (d : Char) (l2 : List Char)
    (h : ¬ c = d) : ¬ (c :: l).take k = d :: l2 := by
  cases k with
  | zero => simp
  | succ k =>
    rw [List.take_succ_cons]
    intro hc
    injection hc with h1 _
    exact h h1

theorem dropWhile_cons_false (c : Char) (l : List Char) (h : jsonWs c = false) :
    (c :: l).dropWhile jsonWs = c :: l := by
  simp [List.dropWhile_cons, h]

theorem intToChars_head (n : Int) : ∃ c l, intToChars n = c :: l ∧
    (c = '-' ∨ c.isDigit = true) := by
  cases n with
  | ofNat m =>
    obtain ⟨l, heq, hne, hdig, _, _, _⟩ := natToChars_spec m
    cases l0 : l with
    | nil => exact absurd l0 hne
    | cons c t =>
      refine ⟨c, t, ?_, Or.inr (hdig c (by simp [l0]))⟩
      show natToChars m = c :: t
      rw [heq, l0]
  | negSucc m => exact ⟨'-', natToChars (m + 1), rfl, Or.inl rfl⟩

theorem dumps_head (v : Value) : ∃ c l, dumps v = c :: l ∧
    (c = 'n' ∨ c = 't' ∨ c = 'f' ∨ c = '"' ∨ c = '[' ∨ c = '{' ∨ c = '-' ∨
      c.isDigit = true) := by
  cases v with
  | null => exact ⟨'n', _, rfl, by simp⟩
  | bool b =>
    cases b with
    | false => exact ⟨'f', _, rfl, by simp⟩
    | true => exact ⟨'t', _, rfl, by simp⟩
  | num n =>
    obtain ⟨c, l, heq, hc⟩ := intToChars_head n
    refine ⟨c, l, ?_, by tauto⟩
    show intToChars n = c :: l
    exact heq
  | str s => exact ⟨'"', _, rfl, by simp⟩
  | arr l =>
    cases l with
    | nil => exact ⟨'[', _, rfl, by simp⟩
    | cons x xs => exact ⟨'[', _, rfl, by simp⟩
  | obj l =>
    cases l with
    | nil => exact ⟨'{', _, rfl, by simp⟩
    | cons e es => exact ⟨'{', _, rfl, by simp⟩

theorem dumps_head_facts (v : Value) : ∃ c l, dumps v = c :: l ∧ jsonWs c = false ∧
    c ≠ ']' ∧ c ≠ '}' ∧ c ≠ ',' := by
  obtain ⟨c, l, heq, hc⟩ := dumps_head v
  refine ⟨c, l, heq, ?_⟩
  rcases hc with h | h | h | h | h | h | h | h
  · subst h; exact ⟨by decide, by decide, by decide, by decide⟩
  · subst h; exact ⟨by decide, by decide, by decide, by decide⟩
  · subst h; exact ⟨by decide, by decide, by decide, by decide⟩
  · subst h; exact ⟨by decide, by decide, by decide, by decide⟩
  · subst h; exact ⟨by decide, by decide, by decide, by decide⟩
  · subst h; exact ⟨by decide, by decide, by decide, by decide⟩
  · subst h; exact ⟨by decide, by decide, by decide, by decide⟩
  · obtain ⟨hws, _, _, _, _, h5, h6, h7, _, _, _⟩ := isDigit_facts c h
    exact ⟨hws, h5, h6, h7⟩

theorem dumps_length_pos (v : Value) : 1 ≤ (dumps v).length := by
  obtain ⟨c, l, heq, _⟩ := dumps_head v
  rw [heq]
  simp

theorem numBoundary_arrTail (xs : List Value) (rest : List Char) :
    numBoundary (dumpsArrTail xs ++ ']' :: rest) = true := by
  cases xs with
  | nil => rfl
  | cons y ys => rfl

theorem numBoundary_objTail (es : List (String × Value)) (rest : List Char) :
    numBoundary (dumpsObjTail es ++ '}' :: rest) = true := by
  cases es with
  | nil => rfl
  | cons e es2 => rfl

theorem parseStringBody_escChars (l rest : List Char) :
    parseStringBody (escChars l ++ '"' :: rest) = some (l, rest) := by
  show parseStringBodyFuel (escChars l ++ '"' :: rest).length
    (escChars l ++ '"' :: rest) = _
  have h := escChars_length_ge l
  have hlen : (escChars l ++ '"' :: rest).length =
      l.length + ((escChars l).length - l.length + rest.length) + 1 := by
    rw [List.length_append, List.length_cons]
    omega
  rw [hlen, psbF_escChars]

theorem parseValue_null (fuel : Nat) (rest : List Char) :
    parseValue (fuel + 1) ('n' :: 'u' :: 'l' :: 'l' :: rest) = some (.null, rest) := by
  conv_lhs => rw [parseValue]
  rfl

theorem parseValue_true (fuel : Nat) (rest : List Char) :
    parseValue (fuel + 1) ('t' :: 'r' :: 'u' :: 'e' :: rest) =
      some (.bool true, rest) := by
  conv_lhs => rw [parseValue]
  rfl

theorem parseValue_false (fuel : Nat) (rest : List Char) :
    parseValue (fuel + 1) ('f' :: 'a' :: 'l' :: 's' :: 'e' :: rest) =
      some (.bool false, rest) := by
  conv_lhs => rw [parseValue]
  rfl

theorem parseValue_str (fuel : Nat) (r : List Char) :
    parseValue (fuel + 1) ('"' :: r) =
      (parseStringBody r).map fun pr => (.str pr.1.asString, pr.2) := by
  conv_lhs => rw [parseValue]
  rfl

theorem parseValue_arr (fuel : Nat) (r : List Char) :
    parseValue (fuel + 1) ('[' :: r) =
      (match r.dropWhile jsonWs with
      | ']' :: r2 => some (.arr [], r2)
      | r2 => parseElems fuel r2 []) := by
  conv_lhs => rw [parseValue]
  rfl

theorem parseValue_obj (fuel : Nat) (r : List Char) :
    parseValue (fuel + 1) ('{' :: r) =
      (match r.dropWhile jsonWs with
      | '}' :: r2 => some (.obj [], r2)
      | r2 => parseMembers fuel r2 []) := by
  conv_lhs => rw [parseValue]
  rfl

theorem parseValue_ws (fuel : Nat) (s : List Char) :
    parseValue (fuel + 1) (' ' :: s) = parseValue (fuel + 1) s := by
  conv_lhs => rw [parseValue]
  conv_rhs => rw [parseValue]
  rfl

theorem parseValue_other (fuel : Nat) (c : Char) (l : List Char)
    (hws : jsonWs c = false) (hn : ¬ c = 'n') (ht : ¬ c = 't') (hf : ¬ c = 'f')
    (hq : ¬ c = '"') (hlb : ¬ c = '[') (hob : ¬ c = '{') :
    parseValue (fuel + 1) (c :: l) = parseNumber (c :: l) := by
  conv_lhs => rw [parseValue]
  rw [dropWhile_cons_false c l hws]
  rw [if_neg (take_cons_ne c l 4 'n' _ hn), if_neg (take_cons_ne c l 4 't' _ ht),
    if_neg (take_cons_ne c l 5 'f' _ hf)]
  split
  · rename_i r heq
    injection heq with h1 _
    exact absurd h1 hq
  · rename_i r heq
    injection heq with h1 _
    exact absurd h1 hlb
  · rename_i r heq
    injection heq with h1 _
    exact absurd h1 hob
  · rfl

theorem roundtrip_all (fuel : Nat) :
    (∀ v rest, (dumps v).length < fuel → numBoundary rest = true →
      parseValue fuel (dumps v ++ rest) = some (v, rest)) ∧
    (∀ x xs acc rest,
      (dumps x).length + (dumpsArrTail xs).length + 2 ≤ fuel →
      parseElems fuel (dumps x ++ (dumpsArrTail xs ++ ']' :: rest)) acc =
        some (.arr (acc ++ x :: xs), rest)) ∧
    (∀ k v es acc rest,
      (dumpsEntry (k, v)).length + (dumpsObjTail es).length + 2 ≤ fuel →
      parseMembers fuel (dumpsEntry (k, v) ++ (dumpsObjTail es ++ '}' :: rest)) acc =
        some (.obj (acc ++ (k, v) :: es), rest)) := by
  induction fuel with
  | zero =>
    exact ⟨fun v rest h _ => absurd h (by omega),
      fun x xs acc rest h => absurd h (by omega),
      fun k v es acc rest h => absurd h (by omega)⟩
  | succ fuel ih =>
    obtain ⟨ihP, ihQ, ihR⟩ := ih
    refine ⟨?_, ?_, ?_⟩
    · intro v rest hlen hb
      cases v with
      | null => exact parseValue_null fuel rest
      | bool b =>
        cases b with
        | true => exact parseValue_true fuel rest
        | false => exact parseValue_false fuel rest
      | num n =>
        obtain ⟨c, l, heq, hc⟩ := intToChars_head n
        have hd : dumps (.num n) = intToChars n := rfl
        have hback : c :: (l ++ rest) = intToChars n ++ rest := by
          rw [heq, List.cons_append]
        rw [hd, heq, List.cons_append]
        rcases hc with h | h
        · subst h
          rw [parseValue_other fuel '-' (l ++ rest) (by decide) (by decide) (by decide)
            (by decide) (by decide) (by decide) (by decide)]
          rw [hback]
          exact parseNumber_intToChars n rest hb
        · obtain ⟨hws, _, h3, h4, h5, _, _, _, h9, h10, h11⟩ := isDigit_facts c h
          rw [parseValue_other fuel c (l ++ rest) hws h9 h10 h11 h3 h4 h5]
          rw [hback]
          exact parseNumber_intToChars n rest hb
      | str s =>
        have hd : dumps (.str s) = '"' :: (escChars s.data ++ ['"']) := rfl
        rw [hd, List.cons_append, parseValue_str, List.append_assoc]
        show (parseStringBody (escChars s.data ++ '"' :: rest)).map
          (fun pr => (Value.str pr.1.asString, pr.2)) = some (Value.str s, rest)
        rw [parseStringBody_escChars]
        simp [list_asString_data]
      | arr l =>
        cases l with
        | nil =>
          have hd : dumps (.arr []) = ['[', ']'] := rfl
          rw [hd]
          show parseValue (fuel + 1) ('[' :: (']' :: rest)) = some (.arr [], rest)
          rw [parseValue_arr]
          rfl
        | cons x xs =>
          have hd : dumps (.arr (x :: xs)) =
              '[' :: (dumps x ++ dumpsArrTail xs ++ [']']) := rfl
          have hlen2 : (dumps x).length + (dumpsArrTail xs).length + 2 ≤ fuel := by
            rw [hd] at hlen
            simp only [List.length_cons, List.length_append,
              List.length_singleton] at hlen
            omega
          rw [hd, List.cons_append, parseValue_arr]
          have hassoc : (dumps x ++ dumpsArrTail xs ++ [']']) ++ rest =
              dumps x ++ (dumpsArrTail xs ++ ']' :: rest) := by
            simp [List.append_assoc]
          rw [hassoc]
          obtain ⟨c, l2, heq, hws, hrb, _, _⟩ := dumps_head_facts x
          rw [heq, List.cons_append, dropWhile_cons_false c _ hws]
          split
          · rename_i r2 heq2
            injection heq2 with h1 _
            exact absurd h1 hrb
          · rw [← List.cons_append, ← heq]
            exact ihQ x xs [] rest hlen2
      | obj l =>
        cases l with
        | nil =>
          have hd : dumps (.obj []) = ['{', '}'] := rfl
          rw [hd]
          show parseValue (fuel + 1) ('{' :: ('}' :: rest)) = some (.obj [], rest)
          rw [parseValue_obj]
          rfl
        | cons e es =>
          obtain ⟨k, v⟩ := e
          have hd : dumps (.obj ((k, v) :: es)) =
              '{' :: (dumpsEntry (k, v) ++ dumpsObjTail es ++ ['}']) := rfl
          have hde : dumpsEntry (k, v) =
              '"' :: (escChars k.data ++ '"' :: ':' :: ' ' :: dumps v) := rfl
          have hlen2 : (dumpsEntry (k, v)).length + (dumpsObjTail es).length + 2 ≤
              fuel := by
            rw [hd] at hlen
            simp only [List.length_cons, List.length_append,
              List.length_singleton] at hlen
            omega
          rw [hd, List.cons_append, parseValue_obj]
          have hassoc : (dumpsEntry (k, v) ++ dumpsObjTail es ++ ['}']) ++ rest =
              dumpsEntry (k, v) ++ (dumpsObjTail es ++ '}' :: rest) := by
            simp [List.append_assoc]
          rw [hassoc, hde, List.cons_append, dropWhile_cons_false '"' _ (by decide)]
          split
          · rename_i r2 heq2
            injection heq2 with h1 _
            exact absurd h1 (by decide)
          · rw [← List.cons_append, ← hde]
            exact ihR k v es [] rest hlen2
    · intro x xs acc rest hlen
      conv_lhs => rw [parseElems]
      have hx : parseValue fuel (dumps x ++ (dumpsArrTail xs ++ ']' :: rest)) =
          some (x, dumpsArrTail xs ++ ']' :: rest) :=
        ihP x (dumpsArrTail xs ++ ']' :: rest) (by omega) (numBoundary_arrTail xs rest)
      simp only [hx]
      cases xs with
      | nil => rfl
      | cons y ys =>
        obtain ⟨c, l2, heq, hws, _, _, _⟩ := dumps_head_facts y
        have hsc : (dumpsArrTail (y :: ys) ++ ']' :: rest).dropWhile jsonWs =
            ',' :: (' ' :: ((dumps y ++ dumpsArrTail ys) ++ ']' :: rest)) := rfl
        simp only [hsc]
        have hdw : (' ' :: ((dumps y ++ dumpsArrTail ys) ++ ']' :: rest)).dropWhile
            jsonWs = dumps y ++ (dumpsArrTail ys ++ ']' :: rest) := by
          show ((dumps y ++ dumpsArrTail ys) ++ ']' :: rest).dropWhile jsonWs = _
          rw [List.append_assoc, heq, List.cons_append, dropWhile_cons_false c _ hws,
            ← List.cons_append, ← heq]
        rw [hdw]
        have hlen3 : (dumps y).length + (dumpsArrTail ys).length + 2 ≤ fuel := by
          have hxpos := dumps_length_pos x
          have htl : (dumpsArrTail (y :: ys)).length =
              2 + (dumps y).length + (dumpsArrTail ys).length := by
            show (',' :: ' ' :: (dumps y ++ dumpsArrTail ys)).length = _
            simp only [List.length_cons, List.length_append]
            omega
          omega
        rw [ihQ y ys (acc ++ [x]) rest hlen3]
        simp
    · intro k v es acc rest hlen
      have hde : dumpsEntry (k, v) ++ (dumpsObjTail es ++ '}' :: rest) =
          '"' :: (escChars k.data ++ ('"' :: (':' :: ' ' ::
            (dumps v ++ (dumpsObjTail es ++ '}' :: rest))))) := by
        show '"' :: ((escChars k.data ++ '"' :: ':' :: ' ' :: dumps v) ++
          (dumpsObjTail es ++ '}' :: rest)) = _
        rw [List.append_assoc]
        rfl
      rw [hde]
      conv_lhs => rw [parseMembers]
      have hvpos := dumps_length_pos v
      have hlene : (dumpsEntry (k, v)).length =
          4 + (escChars k.data).length + (dumps v).length := by
        show ('"' :: (escChars k.data ++ '"' :: ':' :: ' ' :: dumps v)).length = _
        simp only [List.length_cons, List.length_append]
        omega
      simp only [parseStringBody_escChars]
      have hz : ((':' :: ' ' :: (dumps v ++ (dumpsObjTail es ++ '}' :: rest))) :
          List Char).dropWhile jsonWs =
          ':' :: (' ' :: (dumps v ++ (dumpsObjTail es ++ '}' :: rest))) := rfl
      simp only [hz]
      cases fuel with
      | zero => exact absurd hlen (by omega)
      | succ g =>
        rw [parseValue_ws g]
        have hv : parseValue (g + 1) (dumps v ++ (dumpsObjTail es ++ '}' :: rest)) =
            some (v, dumpsObjTail es ++ '}' :: rest) :=
          ihP v _ (by omega) (numBoundary_objTail es rest)
        simp only [hv]
        cases es with
        | nil =>
          have hsc : ((dumpsObjTail ([] : List (String × Value)) ++ '}' ::
              rest)).dropWhile jsonWs = '}' :: rest := rfl
          simp only [hsc, list_asString_data]
        | cons e2 es2 =>
          obtain ⟨k2, v2⟩ := e2
          have hsc : ((dumpsObjTail ((k2, v2) :: es2) ++ '}' :: rest)).dropWhile
              jsonWs = ',' :: (' ' :: ((dumpsEntry (k2, v2) ++ dumpsObjTail es2) ++
                '}' :: rest)) := rfl
          simp only [hsc]
          have hdw2 : (' ' :: ((dumpsEntry (k2, v2) ++ dumpsObjTail es2) ++
              '}' :: rest)).dropWhile jsonWs =
              dumpsEntry (k2, v2) ++ (dumpsObjTail es2 ++ '}' :: rest) := by
            show ((dumpsEntry (k2, v2) ++ dumpsObjTail es2) ++
              '}' :: rest).dropWhile jsonWs = _
            rw [List.append_assoc]
            rw [show dumpsEntry (k2, v2) = '"' :: (escChars k2.data ++ '"' :: ':' ::
              ' ' :: dumps v2) from rfl]
            rw [List.cons_append]
            exact dropWhile_cons_false '"' _ (by decide)
          rw [hdw2]
          have hlen4 : (dumpsEntry (k2, v2)).length + (dumpsObjTail es2).length +
              2 ≤ g + 1 := by
            have htl : (dumpsObjTail ((k2, v2) :: es2)).length =
                2 + (dumpsEntry (k2, v2)).length + (dumpsObjTail es2).length := by
              show (',' :: ' ' :: (dumpsEntry (k2, v2) ++ dumpsObjTail es2)).length = _
              simp only [List.length_cons, List.length_append]
              omega
            omega
          rw [ihR k2 v2 es2 (acc ++ [(k.data.asString, v)]) rest hlen4]
          simp [list_asString_data]

/-- `json.loads (json.dumps v)` recovers `v` exactly on the modeled
fragment: the serializer emits a text the strict parser maps back to the
same value. -/
theorem loads_dumps (v : Value) : loads (dumps v) = some v := by
  have h := (roundtrip_all (2 * (dumps v).length + 2)).1 v [] (by omega) rfl
  rw [List.append_nil] at h
  show (match parseValue (2 * (dumps v).length + 2) (dumps v) with
    | some (v, rest) => if (rest.dropWhile jsonWs).isEmpty then some v else none
    | none => none) = some v
  rw [h]
  rfl

/-- C8: a config value whose serialized form contains no `{{...}}`
tokens round-trips through `_resolve_env_variables` unchanged: the
resolver returns a value deeply equal to its input, so re-resolving an
already-resolved config is a no-op (idempotence). -/
theorem c8_no_token_noop (env : String → Option String) (config : Value)
    (h : findTokens (dumps config) = []) :
    resolve_env_variables env config = .ok config := by
  show (match loads (substLoop env (findTokens (dumps config)) (dumps config)) with
    | some v => Except.ok v
    | none => Except.error "SubstitutionError") = .ok config
  rw [h]
  show (match loads (dumps config) with
    | some v => Except.ok v
    | none => Except.error "SubstitutionError") = .ok config
  rw [loads_dumps]

theorem c8_no_token_noop_witness :
    findTokens (dumps cfgC8) = [] ∧
      resolve_env_variables (fun _ => none) cfgC8 = .ok cfgC8 :=
  ⟨by rfl, c8_no_token_noop (fun _ => none) cfgC8 (by rfl)⟩

/-! ## Substitution on serialized text: `str.replace` facts -/

theorem replaceAllFuel_irrel (pat rep : List Char) :
    ∀ (n m : Nat) (s : List Char), s.length ≤ n → s.length ≤ m →
      replaceAllFuel pat rep n s = replaceAllFuel pat rep m s := by
  intro n
  induction n with
  | zero =>
    intro m s hn _
    cases s with
    | nil =>
      cases m with
      | zero => rfl
      | succ m2 => rfl
    | cons c t => simp at hn
  | succ n2 ih =>
    intro m s hn hm
    cases s with
    | nil =>
      cases m with
      | zero => rfl
      | succ m2 => rfl
    | cons c t =>
      cases m with
      | zero => simp at hm
      | succ m2 =>
        conv_lhs => rw [replaceAllFuel]
        conv_rhs => rw [replaceAllFuel]
        by_cases hp : pat.isPrefixOf (c :: t) = true
        · rw [if_pos hp, if_pos hp,
            ih m2 (t.drop (pat.length - 1))
              (by rw [List.length_drop]; simp at hn; omega)
              (by rw [List.length_drop]; simp at hm; omega)]
        · rw [if_neg hp, if_neg hp,
            ih m2 t (by simp at hn; omega) (by simp at hm; omega)]

theorem replaceAll_nil (pat rep : List Char) : replaceAll pat rep [] = [] := by
  cases pat with
  | nil => rfl
  | cons c p => rfl

theorem replaceAll_cons_nomatch (pat rep : List Char) (c : Char) (s : List Char)
    (hp : pat ≠ []) (h : pat.isPrefixOf (c :: s) = false) :
    replaceAll pat rep (c :: s) = c :: replaceAll pat rep s := by
  cases pat with
  | nil => exact absurd rfl hp
  | cons d p =>
    show replaceAllFuel (d :: p) rep (c :: s).length (c :: s) =
      c :: replaceAllFuel (d :: p) rep s.length s
    rw [show (c :: s).length = s.length + 1 from rfl]
    conv_lhs => rw [replaceAllFuel]
    rw [if_neg (by simp [h])]

theorem replaceAll_match (pat rep : List Char) (s : List Char)
    (hp : pat ≠ []) (h : pat.isPrefixOf s = true) :
    replaceAll pat rep s = rep ++ replaceAll pat rep (s.drop pat.length) := by
  cases pat with
  | nil => exact absurd rfl hp
  | cons d p =>
    cases s with
    | nil => simp [List.isPrefixOf] at h
    | cons c t =>
      show replaceAllFuel (d :: p) rep (c :: t).length (c :: t) = _
      rw [show (c :: t).length = t.length + 1 from rfl]
      conv_lhs => rw [replaceAllFuel]
      rw [if_pos h]
      congr 1
      have hdrop : (c :: t).drop (d :: p).length = t.drop ((d :: p).length - 1) := by
        show (c :: t).drop (p.length + 1) = t.drop (p.length + 1 - 1)
        simp
      rw [hdrop]
      show replaceAllFuel (d :: p) rep t.length (t.drop ((d :: p).length - 1)) =
        replaceAllFuel (d :: p) rep (t.drop ((d :: p).length - 1)).length
          (t.drop ((d :: p).length - 1))
      exact replaceAllFuel_irrel _ _ _ _ _
        (by rw [List.length_drop]; omega) (le_refl _)

theorem not_prefix_head (d : Char) (p : List Char) (c : Char) (s : List Char)
    (h : ¬ d = c) : (d :: p).isPrefixOf (c :: s) = false := by
  simp [List.isPrefixOf, h]

theorem replaceAll_skip (t0 rep : List Char) (a : List Char) :
    ∀ r, (∀ c ∈ a, ¬ c = '{') →
      replaceAll ('{' :: t0) rep (a ++ r) = a ++ replaceAll ('{' :: t0) rep r := by
  induction a with
  | nil => intro r _; rfl
  | cons c a2 ih =>
    intro r h
    have hc : ¬ c = '{' := h c (List.mem_cons_self c a2)
    rw [List.cons_append,
      replaceAll_cons_nomatch _ _ _ _ (by simp)
        (not_prefix_head _ _ _ _ (fun hcc => hc hcc.symm)),
      ih r (fun x hx => h x (List.mem_cons_of_mem c hx))]
    rfl

theorem isTokChar_toNat (c : Char) (h : isTokChar c = true) :
    (65 ≤ c.toNat ∧ c.toNat ≤ 90) ∨ c.toNat = 95 ∨ c.toNat = 123 ∨
      c.toNat = 125 := by
  simp only [isTokChar, isUpperUnd, Bool.or_eq_true, Bool.and_eq_true,
    decide_eq_true_eq] at h
  rcases h with ((⟨h1, h2⟩ | h3) | h4) | h5
  · exact Or.inl ⟨h1, h2⟩
  · subst h3; right; left; rfl
  · subst h4; right; right; left; rfl
  · subst h5; right; right; right; rfl

theorem escChar_self (c : Char) (h1 : 0x20 ≤ c.toNat) (h2 : c.toNat < 0x7f)
    (h3 : ¬ c = '"') (h4 : ¬ c = '\\') : escChar c = [c] := by
  have hn : ¬ c = '\n' := fun h => absurd (h ▸ h1) (by decide)
  have ht : ¬ c = '\t' := fun h => absurd (h ▸ h1) (by decide)
  have hr : ¬ c = '\r' := fun h => absurd (h ▸ h1) (by decide)
  have h8 : ¬ c.toNat = 8 := by omega
  have h12 : ¬ c.toNat = 12 := by omega
  unfold escChar
  rw [if_neg h3, if_neg h4, if_neg hn, if_neg ht, if_neg hr, if_neg h8, if_neg h12,
    if_neg (by omega), if_pos h2]

theorem tokChar_self (c : Char) (h : isTokChar c = true) : escChar c = [c] := by
  have hb : (65 ≤ c.toNat ∧ c.toNat ≤ 90) ∨ c.toNat = 95 ∨ c.toNat = 123 ∨
      c.toNat = 125 := isTokChar_toNat c h
  have h34 : ¬ c.toNat = 34 := by omega
  have h92 : ¬ c.toNat = 92 := by omega
  exact escChar_self c (by omega) (by omega)
    (fun hc => h34 (by rw [hc]; rfl)) (fun hc => h92 (by rw [hc]; rfl))

theorem escChars_append (a b : List Char) :
    escChars (a ++ b) = escChars a ++ escChars b := by
  induction a with
  | nil => rfl
  | cons c a2 ih => rw [List.cons_append, escChars, escChars, ih, List.append_assoc]

theorem escChars_self (l : List Char) (h : ∀ c ∈ l, isTokChar c = true) :
    escChars l = l := by
  induction l with
  | nil => rfl
  | cons c l2 ih =>
    rw [escChars, tokChar_self c (h c (List.mem_cons_self c l2)),
      ih (fun x hx => h x (List.mem_cons_of_mem c hx))]
    rfl

theorem hexChar_ne_brace (k : Nat) (hk : k < 16) : ¬ hexChar k = '{' := by
  interval_cases k <;> decide

theorem mem_hexQuad_ne_brace (n : Nat) : ∀ x ∈ hexQuad n, ¬ x = '{' := by
  intro x hx
  simp only [hexQuad, List.mem_cons, List.not_mem_nil, or_false] at hx
  rcases hx with h | h | h | h | h | h <;> subst h
  · decide
  · decide
  · exact hexChar_ne_brace _ (Nat.mod_lt _ (by omega))
  · exact hexChar_ne_brace _ (Nat.mod_lt _ (by omega))
  · exact hexChar_ne_brace _ (Nat.mod_lt _ (by omega))
  · exact hexChar_ne_brace _ (Nat.mod_lt _ (by omega))

theorem escChar_no_brace (c : Char) (hc : ¬ c = '{') :
    ∀ x ∈ escChar c, ¬ x = '{' := by
  intro x hx
  rw [escChar] at hx
  split_ifs at hx
  all_goals first
    | (simp only [List.mem_cons, List.not_mem_nil, or_false] at hx
       rcases hx with h | h <;> subst h <;> decide)
    | (exact mem_hexQuad_ne_brace _ x hx)
    | (simp only [List.mem_singleton] at hx; subst hx; exact hc)
    | (rcases List.mem_append.mp hx with h | h
       · exact mem_hexQuad_ne_brace _ x h
       · exact mem_hexQuad_ne_brace _ x h)

theorem escChar_cases (c : Char) :
    escChar c = [c] ∨ ∃ m, escChar c = '\\' :: m := by
  by_cases g1 : c = '"'
  · subst g1; exact Or.inr ⟨['"'], rfl⟩
  by_cases g2 : c = '\\'
  · subst g2; exact Or.inr ⟨['\\'], rfl⟩
  by_cases g3 : c = '\n'
  · subst g3; exact Or.inr ⟨['n'], rfl⟩
  by_cases g4 : c = '\t'
  · subst g4; exact Or.inr ⟨['t'], rfl⟩
  by_cases g5 : c = '\r'
  · subst g5; exact Or.inr ⟨['r'], rfl⟩
  by_cases g6 : c.toNat = 8
  · refine Or.inr ⟨['b'], ?_⟩
    unfold escChar
    rw [if_neg g1, if_neg g2, if_neg g3, if_neg g4, if_neg g5, if_pos g6]
  by_cases g7 : c.toNat = 12
  · refine Or.inr ⟨['f'], ?_⟩
    unfold escChar
    rw [if_neg g1, if_neg g2, if_neg g3, if_neg g4, if_neg g5, if_neg g6, if_pos g7]
  by_cases g8 : c.toNat < 0x20
  · refine Or.inr ⟨'u' :: [hexChar (c.toNat / 4096 % 16), hexChar (c.toNat / 256 % 16),
      hexChar (c.toNat / 16 % 16), hexChar (c.toNat % 16)], ?_⟩
    unfold escChar
    rw [if_neg g1, if_neg g2, if_neg g3, if_neg g4, if_neg g5, if_neg g6, if_neg g7,
      if_pos g8]
    rfl
  by_cases g9 : c.toNat < 0x7f
  · refine Or.inl ?_
    unfold escChar
    rw [if_neg g1, if_neg g2, if_neg g3, if_neg g4, if_neg g5, if_neg g6, if_neg g7,
      if_neg g8, if_pos g9]
  by_cases g10 : c.toNat < 0x10000
  · refine Or.inr ⟨'u' :: [hexChar (c.toNat / 4096 % 16), hexChar (c.toNat / 256 % 16),
      hexChar (c.toNat / 16 % 16), hexChar (c.toNat % 16)], ?_⟩
    unfold escChar
    rw [if_neg g1, if_neg g2, if_neg g3, if_neg g4, if_neg g5, if_neg g6, if_neg g7,
      if_neg g8, if_neg g9, if_pos g10]
    rfl
  · refine Or.inr ⟨'u' :: hexChar ((0xd800 + (c.toNat - 0x10000) / 0x400) / 4096 % 16) ::
      hexChar ((0xd800 + (c.toNat - 0x10000) / 0x400) / 256 % 16) ::
      hexChar ((0xd800 + (c.toNat - 0x10000) / 0x400) / 16 % 16) ::
      hexChar ((0xd800 + (c.toNat - 0x10000) / 0x400) % 16) ::
      hexQuad (0xdc00 + (c.toNat - 0x10000) % 0x400), ?_⟩
    unfold escChar
    rw [if_neg g1, if_neg g2, if_neg g3, if_neg g4, if_neg g5, if_neg g6, if_neg g7,
      if_neg g8, if_neg g9, if_neg g10]
    rfl

theorem prefix_esc (t : List Char) (ht : ∀ c ∈ t, isTokChar c = true) :
    ∀ (x r : List Char),
      t.isPrefixOf (escChars x ++ '"' :: r) = t.isPrefixOf x := by
  induction t with
  | nil => intro x r; simp [List.isPrefixOf]
  | cons d t' ih =>
    intro x r
    have hd : isTokChar d = true := ht d (List.mem_cons_self d t')
    cases x with
    | nil =>
      have hdq : ¬ d = '"' := by
        intro hc
        rw [hc] at hd
        exact absurd hd (by decide)
      show (d :: t').isPrefixOf ('"' :: r) = (d :: t').isPrefixOf []
      rw [not_prefix_head d t' '"' r hdq]
      rfl
    | cons e x' =>
      rcases escChar_cases e with he | ⟨m, he⟩
      · have hred : escChars (e :: x') ++ '"' :: r = e :: (escChars x' ++ '"' :: r) := by
          rw [escChars, he]
          rfl
        rw [hred]
        by_cases hde : d = e
        · subst hde
          show (d == d && t'.isPrefixOf (escChars x' ++ '"' :: r)) =
            (d == d && t'.isPrefixOf x')
          rw [ih (fun c hc => ht c (List.mem_cons_of_mem d hc)) x' r]
        · rw [not_prefix_head d t' e _ hde, not_prefix_head d t' e x' hde]
      · have hde : ¬ d = '\\' := by
          intro hc
          rw [hc] at hd
          exact absurd hd (by decide)
        have hdne : ¬ d = e := by
          intro hc
          subst hc
          rw [tokChar_self d hd] at he
          injection he with h1 _
          rw [h1] at hd
          exact absurd hd (by decide)
        have hred : escChars (e :: x') ++ '"' :: r =
            '\\' :: (m ++ (escChars x' ++ '"' :: r)) := by
          rw [escChars, he, List.cons_append, List.cons_append, List.append_assoc]
        rw [hred, not_prefix_head d t' '\\' _ hde, not_prefix_head d t' e x' hdne]

theorem esc_subst (p0 rep : List Char)
    (hpat : ∀ c ∈ '{' :: p0, isTokChar c = true)
    (hrep : ∀ c ∈ rep, isTokChar c = true) :
    ∀ (n : Nat) (sd r : List Char), sd.length ≤ n →
      replaceAll ('{' :: p0) rep (escChars sd ++ '"' :: r) =
        escChars (replaceAll ('{' :: p0) rep sd) ++
          '"' :: replaceAll ('{' :: p0) rep r := by
  intro n
  induction n with
  | zero =>
    intro sd r h
    cases sd with
    | nil =>
      rw [replaceAll_nil]
      show replaceAll ('{' :: p0) rep ('"' :: r) =
        '"' :: replaceAll ('{' :: p0) rep r
      exact replaceAll_cons_nomatch _ _ _ _ (by simp)
        (not_prefix_head _ _ _ _ (by decide))
    | cons c t => simp at h
  | succ n2 ih =>
    intro sd r hlen
    by_cases hpre : ('{' :: p0).isPrefixOf sd = true
    · obtain ⟨sd', rfl⟩ := List.isPrefixOf_iff_prefix.mp hpre
      have hesc : escChars (('{' :: p0) ++ sd') ++ '"' :: r =
          ('{' :: p0) ++ (escChars sd' ++ '"' :: r) := by
        rw [escChars_append, escChars_self _ hpat, List.append_assoc]
      have hA := replaceAll_match ('{' :: p0) rep
        (('{' :: p0) ++ (escChars sd' ++ '"' :: r)) (by simp)
        (List.isPrefixOf_iff_prefix.mpr (List.prefix_append _ _))
      rw [List.drop_left] at hA
      have hB := replaceAll_match ('{' :: p0) rep (('{' :: p0) ++ sd') (by simp)
        (List.isPrefixOf_iff_prefix.mpr (List.prefix_append _ _))
      rw [List.drop_left] at hB
      rw [hesc, hA, hB, escChars_append, escChars_self rep hrep, List.append_assoc,
        ih sd' r (by simp [List.length_append] at hlen ⊢; omega)]
    · cases sd with
      | nil =>
        rw [replaceAll_nil]
        show replaceAll ('{' :: p0) rep ('"' :: r) =
          '"' :: replaceAll ('{' :: p0) rep r
        exact replaceAll_cons_nomatch _ _ _ _ (by simp)
          (not_prefix_head _ _ _ _ (by decide))
      | cons c sd' =>
        have hpre2 : ('{' :: p0).isPrefixOf (c :: sd') = false := by
          cases hh : ('{' :: p0).isPrefixOf (c :: sd')
          · rfl
          · exact absurd hh hpre
        have hraw : replaceAll ('{' :: p0) rep (c :: sd') =
            c :: replaceAll ('{' :: p0) rep sd' :=
          replaceAll_cons_nomatch _ _ _ _ (by simp) hpre2
        rcases escChar_cases c with he | ⟨m, he⟩
        · have hred : escChars (c :: sd') ++ '"' :: r =
              c :: (escChars sd' ++ '"' :: r) := by
            rw [escChars, he]
            rfl
          have hesc_pre : ('{' :: p0).isPrefixOf
              (escChars (c :: sd') ++ '"' :: r) = false := by
            rw [prefix_esc ('{' :: p0) hpat (c :: sd') r]
            exact hpre2
          rw [hred] at hesc_pre
          rw [hred, replaceAll_cons_nomatch _ _ _ _ (by simp) hesc_pre,
            ih sd' r (by simp at hlen; omega), hraw, escChars, he]
          rfl
        · have hctok : isTokChar c = false := by
            cases hh : isTokChar c
            · rfl
            · rw [tokChar_self c hh] at he
              injection he with h1 _
              exact absurd (h1 ▸ hh) (by decide)
          have hcne : ¬ c = '{' := by
            intro hcc
            rw [hcc] at hctok
            exact absurd hctok (by decide)
          have hred : escChars (c :: sd') ++ '"' :: r =
              escChar c ++ (escChars sd' ++ '"' :: r) := by
            rw [escChars, List.append_assoc]
          rw [hred, replaceAll_skip p0 rep (escChar c) _ (escChar_no_brace c hcne),
            ih sd' r (by simp at hlen; omega), hraw, escChars, List.append_assoc]

theorem asString_data (l : List Char) : l.asString.data = l := rfl

theorem intToChars_no_brace (n : Int) : ∀ c ∈ intToChars n, ¬ c = '{' := by
  have hnat : ∀ m : Nat, ∀ c ∈ natToChars m, ¬ c = '{' := by
    intro m c hc
    obtain ⟨l, heq, _, hdig, _, _, _⟩ := natToChars_spec m
    rw [heq] at hc
    have hd := hdig c hc
    intro hcc
    rw [hcc] at hd
    exact absurd hd (by decide)
  cases n with
  | ofNat m => exact hnat m
  | negSucc m =>
    intro c hc
    rcases List.mem_cons.mp hc with h | h
    · subst h; decide
    · exact hnat (m + 1) c h

theorem not_prefix_head2 (d1 d2 : Char) (p : List Char) (c1 c2 : Char)
    (s : List Char) (h : ¬ d2 = c2) :
    (d1 :: d2 :: p).isPrefixOf (c1 :: c2 :: s) = false := by
  simp [List.isPrefixOf, h]

theorem subst_comm_all (var rep : List Char)
    (hvar : ∀ c ∈ var, isUpperUnd c = true)
    (hrep : ∀ c ∈ rep, isTokChar c = true) :
    ∀ n : Nat,
    (∀ v r, (dumps v).length ≤ n →
      replaceAll ('{' :: '{' :: (var ++ ['}', '}'])) rep (dumps v ++ r) =
        dumps (substStr ('{' :: '{' :: (var ++ ['}', '}'])) rep v) ++ replaceAll ('{' :: '{' :: (var ++ ['}', '}'])) rep r) ∧
    (∀ xs r, (dumpsArrTail xs).length ≤ n →
      replaceAll ('{' :: '{' :: (var ++ ['}', '}'])) rep (dumpsArrTail xs ++ r) =
        dumpsArrTail (substStrList ('{' :: '{' :: (var ++ ['}', '}'])) rep xs) ++ replaceAll ('{' :: '{' :: (var ++ ['}', '}'])) rep r) ∧
    (∀ es r, (dumpsObjTail es).length ≤ n →
      replaceAll ('{' :: '{' :: (var ++ ['}', '}'])) rep (dumpsObjTail es ++ r) =
        dumpsObjTail (substStrObj ('{' :: '{' :: (var ++ ['}', '}'])) rep es) ++ replaceAll ('{' :: '{' :: (var ++ ['}', '}'])) rep r) ∧
    (∀ k v r, (dumpsEntry (k, v)).length ≤ n →
      replaceAll ('{' :: '{' :: (var ++ ['}', '}'])) rep (dumpsEntry (k, v) ++ r) =
        dumpsEntry ((replaceAll ('{' :: '{' :: (var ++ ['}', '}'])) rep k.data).asString, substStr ('{' :: '{' :: (var ++ ['}', '}'])) rep v) ++
          replaceAll ('{' :: '{' :: (var ++ ['}', '}'])) rep r) := by
  have htk : ∀ c ∈ '{' :: ('{' :: (var ++ ['}', '}'])), isTokChar c = true := by
    intro c hc
    simp only [List.mem_cons, List.mem_append, List.not_mem_nil, or_false] at hc
    rcases hc with h | h | h | h | h
    · subst h; decide
    · subst h; decide
    · simp [isTokChar, hvar c h]
    · subst h; decide
    · subst h; decide
  intro n
  induction n with
  | zero =>
    refine ⟨?_, ?_, ?_, ?_⟩
    · intro v r h
      exact absurd h (by have := dumps_length_pos v; omega)
    · intro xs r h
      cases xs with
      | nil => rfl
      | cons y ys =>
        have htl : (dumpsArrTail (y :: ys)).length =
            2 + (dumps y).length + (dumpsArrTail ys).length := by
          show (',' :: ' ' :: (dumps y ++ dumpsArrTail ys)).length = _
          simp only [List.length_cons, List.length_append]
          omega
        exact absurd h (by omega)
    · intro es r h
      cases es with
      | nil => rfl
      | cons e es2 =>
        have htl : (dumpsObjTail (e :: es2)).length =
            2 + (dumpsEntry e).length + (dumpsObjTail es2).length := by
          show (',' :: ' ' :: (dumpsEntry e ++ dumpsObjTail es2)).length = _
          simp only [List.length_cons, List.length_append]
          omega
        exact absurd h (by omega)
    · intro k v r h
      have hlene : (dumpsEntry (k, v)).length =
          4 + (escChars k.data).length + (dumps v).length := by
        show ('\x22' :: (escChars k.data ++ '\x22' :: ':' :: ' ' :: dumps v)).length = _
        simp only [List.length_cons, List.length_append]
        omega
      exact absurd h (by omega)
  | succ n2 ih =>
    obtain ⟨ihP, ihQ, ihR, ihE⟩ := ih
    refine ⟨?_, ?_, ?_, ?_⟩
    · intro v r hlen
      cases v with
      | null =>
        rw [show dumps Value.null ++ r = ['n', 'u', 'l', 'l'] ++ r from rfl,
          replaceAll_skip _ _ _ _ (by decide)]
        rfl
      | bool b =>
        cases b with
        | true =>
          rw [show dumps (Value.bool true) ++ r = ['t', 'r', 'u', 'e'] ++ r from rfl,
            replaceAll_skip _ _ _ _ (by decide)]
          rfl
        | false =>
          rw [show dumps (Value.bool false) ++ r =
              ['f', 'a', 'l', 's', 'e'] ++ r from rfl,
            replaceAll_skip _ _ _ _ (by decide)]
          rfl
      | num m =>
        rw [show dumps (Value.num m) ++ r = intToChars m ++ r from rfl,
          replaceAll_skip _ _ _ _ (intToChars_no_brace m)]
        rfl
      | str s =>
        have hsh : dumps (Value.str s) ++ r =
            '\x22' :: (escChars s.data ++ '\x22' :: r) := by
          show '\x22' :: (escChars s.data ++ ['\x22']) ++ r = _
          rw [List.cons_append, List.append_assoc]
          rfl
        have hrhs : dumps (substStr ('{' :: '{' :: (var ++ ['}', '}'])) rep (Value.str s)) ++ replaceAll ('{' :: '{' :: (var ++ ['}', '}'])) rep r =
            '\x22' :: (escChars (replaceAll ('{' :: '{' :: (var ++ ['}', '}'])) rep s.data) ++
              '\x22' :: replaceAll ('{' :: '{' :: (var ++ ['}', '}'])) rep r) := by
          show '\x22' :: (escChars ((replaceAll ('{' :: '{' :: (var ++ ['}', '}'])) rep s.data).asString).data ++
            ['\x22']) ++ _ = _
          rw [asString_data, List.cons_append, List.append_assoc]
          rfl
        rw [hsh, replaceAll_cons_nomatch _ _ _ _ (by simp)
            (not_prefix_head _ _ '\x22' _ (by decide)),
          esc_subst ('{' :: (var ++ ['}', '}'])) rep htk hrep s.data.length s.data r
            (le_refl _), hrhs]
      | arr l =>
        cases l with
        | nil =>
          rw [show dumps (Value.arr []) ++ r = ['[', ']'] ++ r from rfl,
            replaceAll_skip _ _ _ _ (by decide)]
          rfl
        | cons x xs =>
          have hd : dumps (Value.arr (x :: xs)) ++ r =
              '[' :: (dumps x ++ (dumpsArrTail xs ++ (']' :: r))) := by
            show '[' :: (dumps x ++ dumpsArrTail xs ++ [']']) ++ r = _
            rw [List.cons_append, List.append_assoc, List.append_assoc]
            rfl
          have hlens : (dumps x).length ≤ n2 ∧ (dumpsArrTail xs).length ≤ n2 := by
            have htot : (dumps (Value.arr (x :: xs))).length =
                2 + (dumps x).length + (dumpsArrTail xs).length := by
              show ('[' :: (dumps x ++ dumpsArrTail xs ++ [']'])).length = _
              simp only [List.length_cons, List.length_append, List.length_singleton, List.length_nil]
              omega
            omega
          have hrhs : dumps (substStr ('{' :: '{' :: (var ++ ['}', '}'])) rep (Value.arr (x :: xs))) ++
              replaceAll ('{' :: '{' :: (var ++ ['}', '}'])) rep r =
              '[' :: (dumps (substStr ('{' :: '{' :: (var ++ ['}', '}'])) rep x) ++
                (dumpsArrTail (substStrList ('{' :: '{' :: (var ++ ['}', '}'])) rep xs) ++
                  (']' :: replaceAll ('{' :: '{' :: (var ++ ['}', '}'])) rep r))) := by
            show '[' :: (dumps (substStr ('{' :: '{' :: (var ++ ['}', '}'])) rep x) ++
              dumpsArrTail (substStrList ('{' :: '{' :: (var ++ ['}', '}'])) rep xs) ++ [']']) ++ _ = _
            rw [List.cons_append, List.append_assoc, List.append_assoc]
            rfl
          rw [hd, replaceAll_cons_nomatch _ _ _ _ (by simp)
              (not_prefix_head _ _ '[' _ (by decide)),
            ihP x _ hlens.1, ihQ xs _ hlens.2,
            replaceAll_cons_nomatch _ _ _ _ (by simp)
              (not_prefix_head _ _ ']' _ (by decide)), hrhs]
      | obj l =>
        cases l with
        | nil =>
          have h1 : replaceAll ('{' :: '{' :: (var ++ ['}', '}'])) rep (dumps (Value.obj []) ++ r) =
              '{' :: replaceAll ('{' :: '{' :: (var ++ ['}', '}'])) rep ('}' :: r) := by
            show replaceAll ('{' :: '{' :: (var ++ ['}', '}'])) rep ('{' :: '}' :: r) = _
            exact replaceAll_cons_nomatch _ _ _ _ (by simp)
              (not_prefix_head2 _ _ _ _ _ _ (by decide))
          rw [h1, replaceAll_cons_nomatch _ _ _ _ (by simp)
            (not_prefix_head _ _ '}' _ (by decide))]
          rfl
        | cons e es =>
          obtain ⟨k, v⟩ := e
          have hd : dumps (Value.obj ((k, v) :: es)) ++ r =
              '{' :: (dumpsEntry (k, v) ++ (dumpsObjTail es ++ ('}' :: r))) := by
            show '{' :: (dumpsEntry (k, v) ++ dumpsObjTail es ++ ['}']) ++ r = _
            rw [List.cons_append, List.append_assoc, List.append_assoc]
            rfl
          have hlens : (dumpsEntry (k, v)).length ≤ n2 ∧
              (dumpsObjTail es).length ≤ n2 := by
            have htot : (dumps (Value.obj ((k, v) :: es))).length =
                2 + (dumpsEntry (k, v)).length + (dumpsObjTail es).length := by
              show ('{' :: (dumpsEntry (k, v) ++ dumpsObjTail es ++ ['}'])).length = _
              simp only [List.length_cons, List.length_append, List.length_singleton, List.length_nil]
              omega
            omega
          have h1 : replaceAll ('{' :: '{' :: (var ++ ['}', '}'])) rep
              ('{' :: (dumpsEntry (k, v) ++ (dumpsObjTail es ++ ('}' :: r)))) =
              '{' :: replaceAll ('{' :: '{' :: (var ++ ['}', '}'])) rep
                (dumpsEntry (k, v) ++ (dumpsObjTail es ++ ('}' :: r))) := by
            have hde : dumpsEntry (k, v) ++ (dumpsObjTail es ++ ('}' :: r)) =
                '\x22' :: ((escChars k.data ++ '\x22' :: ':' :: ' ' :: dumps v) ++
                  (dumpsObjTail es ++ ('}' :: r))) := rfl
            rw [hde]
            exact replaceAll_cons_nomatch _ _ _ _ (by simp)
              (not_prefix_head2 _ _ _ _ _ _ (by decide))
          have hrhs : dumps (substStr ('{' :: '{' :: (var ++ ['}', '}'])) rep (Value.obj ((k, v) :: es))) ++
              replaceAll ('{' :: '{' :: (var ++ ['}', '}'])) rep r =
              '{' :: (dumpsEntry ((replaceAll ('{' :: '{' :: (var ++ ['}', '}'])) rep k.data).asString,
                  substStr ('{' :: '{' :: (var ++ ['}', '}'])) rep v) ++
                (dumpsObjTail (substStrObj ('{' :: '{' :: (var ++ ['}', '}'])) rep es) ++
                  ('}' :: replaceAll ('{' :: '{' :: (var ++ ['}', '}'])) rep r))) := by
            show '{' :: (dumpsEntry ((replaceAll ('{' :: '{' :: (var ++ ['}', '}'])) rep k.data).asString,
                substStr ('{' :: '{' :: (var ++ ['}', '}'])) rep v) ++
              dumpsObjTail (substStrObj ('{' :: '{' :: (var ++ ['}', '}'])) rep es) ++ ['}']) ++ _ = _
            rw [List.cons_append, List.append_assoc, List.append_assoc]
            rfl
          rw [hd, h1, ihE k v _ hlens.1, ihR es _ hlens.2,
            replaceAll_cons_nomatch _ _ _ _ (by simp)
              (not_prefix_head _ _ '}' _ (by decide)), hrhs]
    · intro xs r hlen
      cases xs with
      | nil => rfl
      | cons y ys =>
        have htl : (dumpsArrTail (y :: ys)).length =
            2 + (dumps y).length + (dumpsArrTail ys).length := by
          show (',' :: ' ' :: (dumps y ++ dumpsArrTail ys)).length = _
          simp only [List.length_cons, List.length_append]
          omega
        have hd : dumpsArrTail (y :: ys) ++ r =
            ',' :: ' ' :: (dumps y ++ (dumpsArrTail ys ++ r)) := by
          show ',' :: ' ' :: (dumps y ++ dumpsArrTail ys) ++ r = _
          rw [List.cons_append, List.cons_append, List.append_assoc]
        have hrhs : dumpsArrTail (substStrList ('{' :: '{' :: (var ++ ['}', '}'])) rep (y :: ys)) ++
            replaceAll ('{' :: '{' :: (var ++ ['}', '}'])) rep r =
            ',' :: ' ' :: (dumps (substStr ('{' :: '{' :: (var ++ ['}', '}'])) rep y) ++
              (dumpsArrTail (substStrList ('{' :: '{' :: (var ++ ['}', '}'])) rep ys) ++ replaceAll ('{' :: '{' :: (var ++ ['}', '}'])) rep r)) := by
          show ',' :: ' ' :: (dumps (substStr ('{' :: '{' :: (var ++ ['}', '}'])) rep y) ++
            dumpsArrTail (substStrList ('{' :: '{' :: (var ++ ['}', '}'])) rep ys)) ++ _ = _
          rw [List.cons_append, List.cons_append, List.append_assoc]
        rw [hd, replaceAll_cons_nomatch _ _ _ _ (by simp)
            (not_prefix_head _ _ ',' _ (by decide)),
          replaceAll_cons_nomatch _ _ _ _ (by simp)
            (not_prefix_head _ _ ' ' _ (by decide)),
          ihP y _ (by omega), ihQ ys _ (by omega), hrhs]
    · intro es r hlen
      cases es with
      | nil => rfl
      | cons e es2 =>
        obtain ⟨k, v⟩ := e
        have htl : (dumpsObjTail ((k, v) :: es2)).length =
            2 + (dumpsEntry (k, v)).length + (dumpsObjTail es2).length := by
          show (',' :: ' ' :: (dumpsEntry (k, v) ++ dumpsObjTail es2)).length = _
          simp only [List.length_cons, List.length_append]
          omega
        have hd : dumpsObjTail ((k, v) :: es2) ++ r =
            ',' :: ' ' :: (dumpsEntry (k, v) ++ (dumpsObjTail es2 ++ r)) := by
          show ',' :: ' ' :: (dumpsEntry (k, v) ++ dumpsObjTail es2) ++ r = _
          rw [List.cons_append, List.cons_append, List.append_assoc]
        have hrhs : dumpsObjTail (substStrObj ('{' :: '{' :: (var ++ ['}', '}'])) rep ((k, v) :: es2)) ++
            replaceAll ('{' :: '{' :: (var ++ ['}', '}'])) rep r =
            ',' :: ' ' :: (dumpsEntry ((replaceAll ('{' :: '{' :: (var ++ ['}', '}'])) rep k.data).asString,
                substStr ('{' :: '{' :: (var ++ ['}', '}'])) rep v) ++
              (dumpsObjTail (substStrObj ('{' :: '{' :: (var ++ ['}', '}'])) rep es2) ++ replaceAll ('{' :: '{' :: (var ++ ['}', '}'])) rep r)) := by
          show ',' :: ' ' :: (dumpsEntry ((replaceAll ('{' :: '{' :: (var ++ ['}', '}'])) rep k.data).asString,
              substStr ('{' :: '{' :: (var ++ ['}', '}'])) rep v) ++
            dumpsObjTail (substStrObj ('{' :: '{' :: (var ++ ['}', '}'])) rep es2)) ++ _ = _
          rw [List.cons_append, List.cons_append, List.append_assoc]
        rw [hd, replaceAll_cons_nomatch _ _ _ _ (by simp)
            (not_prefix_head _ _ ',' _ (by decide)),
          replaceAll_cons_nomatch _ _ _ _ (by simp)
            (not_prefix_head _ _ ' ' _ (by decide)),
          ihE k v _ (by omega), ihR es2 _ (by omega), hrhs]
    · intro k v r hlen
      have hlene : (dumpsEntry (k, v)).length =
          4 + (escChars k.data).length + (dumps v).length := by
        show ('\x22' :: (escChars k.data ++ '\x22' :: ':' :: ' ' :: dumps v)).length = _
        simp only [List.length_cons, List.length_append]
        omega
      have hd : dumpsEntry (k, v) ++ r =
          '\x22' :: (escChars k.data ++ '\x22' :: (':' :: ' ' :: (dumps v ++ r))) := by
        show '\x22' :: (escChars k.data ++ '\x22' :: ':' :: ' ' :: dumps v) ++ r = _
        rw [List.cons_append, List.append_assoc]
        rfl
      have hrhs : dumpsEntry ((replaceAll ('{' :: '{' :: (var ++ ['}', '}'])) rep k.data).asString,
            substStr ('{' :: '{' :: (var ++ ['}', '}'])) rep v) ++ replaceAll ('{' :: '{' :: (var ++ ['}', '}'])) rep r =
          '\x22' :: (escChars (replaceAll ('{' :: '{' :: (var ++ ['}', '}'])) rep k.data) ++
            '\x22' :: (':' :: ' ' :: (dumps (substStr ('{' :: '{' :: (var ++ ['}', '}'])) rep v) ++
              replaceAll ('{' :: '{' :: (var ++ ['}', '}'])) rep r))) := by
        show '\x22' :: (escChars ((replaceAll ('{' :: '{' :: (var ++ ['}', '}'])) rep k.data).asString).data ++
          '\x22' :: ':' :: ' ' :: dumps (substStr ('{' :: '{' :: (var ++ ['}', '}'])) rep v)) ++ _ = _
        rw [asString_data, List.cons_append, List.append_assoc]
        rfl
      rw [hd, replaceAll_cons_nomatch _ _ _ _ (by simp)
          (not_prefix_head _ _ '\x22' _ (by decide)),
        esc_subst ('{' :: (var ++ ['}', '}'])) rep htk hrep k.data.length k.data _
          (le_refl _),
        replaceAll_cons_nomatch _ _ _ _ (by simp)
          (not_prefix_head _ _ ':' _ (by decide)),
        replaceAll_cons_nomatch _ _ _ _ (by simp)
          (not_prefix_head _ _ ' ' _ (by decide)),
        ihP v _ (by omega), hrhs]

theorem containsSub_cons (p : List Char) (c : Char) (r : List Char)
    (h : containsSub p r = true) : containsSub p (c :: r) = true := by
  show (p.isPrefixOf (c :: r) || containsSub p r) = true
  rw [h, Bool.or_true]

theorem containsSub_append_left (p a : List Char) :
    ∀ r, containsSub p r = true → containsSub p (a ++ r) = true := by
  induction a with
  | nil => intro r h; exact h
  | cons c a2 ih => intro r h; exact containsSub_cons p c _ (ih r h)

theorem containsSub_self_append (p x : List Char) :
    containsSub p (p ++ x) = true := by
  cases p with
  | nil =>
    cases x with
    | nil => rfl
    | cons c r => rfl
  | cons c p2 =>
    show ((c :: p2).isPrefixOf ((c :: p2) ++ x) || _) = true
    rw [List.isPrefixOf_iff_prefix.mpr (List.prefix_append _ _), Bool.true_or]

theorem replaceAll_contains (pat rep : List Char) (hp : pat ≠ []) :
    ∀ (n : Nat) (s : List Char), s.length ≤ n → containsSub pat s = true →
      containsSub rep (replaceAll pat rep s) = true := by
  intro n
  induction n with
  | zero =>
    intro s hlen hc
    cases s with
    | nil =>
      simp [containsSub] at hc
      exact absurd hc hp
    | cons c t => simp at hlen
  | succ n2 ih =>
    intro s hlen hc
    cases s with
    | nil =>
      simp [containsSub] at hc
      exact absurd hc hp
    | cons c t =>
      by_cases hpre : pat.isPrefixOf (c :: t) = true
      · rw [replaceAll_match pat rep _ hp hpre]
        exact containsSub_self_append rep _
      · have hpre2 : pat.isPrefixOf (c :: t) = false := by
          cases hh : pat.isPrefixOf (c :: t)
          · rfl
          · exact absurd hh hpre
        rw [replaceAll_cons_nomatch pat rep c t hp hpre2]
        have hct : containsSub pat t = true := by
          rw [show containsSub pat (c :: t) =
            (pat.isPrefixOf (c :: t) || containsSub pat t) from rfl, hpre2,
            Bool.false_or] at hc
          exact hc
        exact containsSub_cons rep c _ (ih t (by simp at hlen; omega) hct)

theorem findTokensFuel_mem : ∀ (fuel : Nat) (s : List Char) (var : List Char),
    var ∈ findTokensFuel fuel s → containsSub (tokenOf var) s = true := by
  intro fuel s
  induction fuel, s using findTokensFuel.induct with
  | case1 s =>
    intro var h
    simp [findTokensFuel] at h
  | case2 fuel rest run hrun ih =>
    intro var h
    have hrun2 : (rest.takeWhile isUpperUnd).isEmpty = true := hrun
    have h2 : var ∈ (if (rest.takeWhile isUpperUnd).isEmpty then
        findTokensFuel fuel ('{' :: rest)
      else if ((rest.drop (rest.takeWhile isUpperUnd).length).take 2) = ['}', '}'] then
        (rest.takeWhile isUpperUnd) ::
          findTokensFuel fuel ((rest.drop (rest.takeWhile isUpperUnd).length).drop 2)
      else findTokensFuel fuel ('{' :: rest)) := h
    rw [if_pos hrun2] at h2
    exact containsSub_cons _ _ _ (ih var h2)
  | case3 fuel rest run hrun htake ih =>
    intro var h
    have hrun2 : ¬ (rest.takeWhile isUpperUnd).isEmpty = true := hrun
    have htake2 : ((rest.drop (rest.takeWhile isUpperUnd).length).take 2) =
      ['}', '}'] := htake
    have h2 : var ∈ (if (rest.takeWhile isUpperUnd).isEmpty then
        findTokensFuel fuel ('{' :: rest)
      else if ((rest.drop (rest.takeWhile isUpperUnd).length).take 2) = ['}', '}'] then
        (rest.takeWhile isUpperUnd) ::
          findTokensFuel fuel ((rest.drop (rest.takeWhile isUpperUnd).length).drop 2)
      else findTokensFuel fuel ('{' :: rest)) := h
    rw [if_neg hrun2, if_pos htake2] at h2
    obtain ⟨t, ht⟩ := List.takeWhile_prefix (p := isUpperUnd) (l := rest)
    have hdrop : rest.drop (rest.takeWhile isUpperUnd).length = t := by
      have hx := List.drop_left (rest.takeWhile isUpperUnd) t
      rw [ht] at hx
      exact hx
    have hshape : ∃ t2, t = '}' :: '}' :: t2 := by
      rw [hdrop] at htake2
      cases t with
      | nil => simp at htake2
      | cons a t1 =>
        cases t1 with
        | nil => simp [List.take] at htake2
        | cons b t2 =>
          simp [List.take] at htake2
          exact ⟨t2, by rw [htake2.1, htake2.2]⟩
    obtain ⟨t2, rfl⟩ := hshape
    rcases List.mem_cons.mp h2 with hv | hv
    · have ht3 : var ++ '}' :: '}' :: t2 = rest := by rw [hv]; exact ht
      rw [← ht3]
      show ((tokenOf var).isPrefixOf
        ('{' :: '{' :: (var ++ '}' :: '}' :: t2)) || _) = true
      have hpref : (tokenOf var).isPrefixOf
          ('{' :: '{' :: (var ++ '}' :: '}' :: t2)) = true := by
        apply List.isPrefixOf_iff_prefix.mpr
        show '{' :: '{' :: (var ++ ['}', '}']) <+:
          '{' :: '{' :: (var ++ '}' :: '}' :: t2)
        rw [List.cons_prefix_cons, List.cons_prefix_cons]
        refine ⟨rfl, rfl, ?_⟩
        rw [List.prefix_append_right_inj]
        exact ⟨t2, rfl⟩
      rw [hpref, Bool.true_or]
    · have ih2 : ∀ v2 ∈ findTokensFuel fuel
          (List.drop 2 (List.drop (List.takeWhile isUpperUnd rest).length rest)),
          containsSub (tokenOf v2)
            (List.drop 2 (List.drop (List.takeWhile isUpperUnd rest).length rest)) =
            true := ih
      have hx := ih2 var hv
      have hd2 : List.drop 2 (List.drop (List.takeWhile isUpperUnd rest).length
          rest) = t2 := by
        rw [hdrop]
        rfl
      rw [hd2] at hx
      rw [← ht]
      have hsplit : '{' :: '{' :: ((rest.takeWhile isUpperUnd) ++ '}' :: '}' :: t2) =
          ('{' :: '{' :: ((rest.takeWhile isUpperUnd) ++ ['}', '}'])) ++ t2 := by
        simp [List.append_assoc]
      rw [hsplit]
      exact containsSub_append_left _ _ _ hx
  | case4 fuel rest run hrun htake ih =>
    intro var h
    have hrun2 : ¬ (rest.takeWhile isUpperUnd).isEmpty = true := hrun
    have htake2 : ¬ ((rest.drop (rest.takeWhile isUpperUnd).length).take 2) =
      ['}', '}'] := htake
    have h2 : var ∈ (if (rest.takeWhile isUpperUnd).isEmpty then
        findTokensFuel fuel ('{' :: rest)
      else if ((rest.drop (rest.takeWhile isUpperUnd).length).take 2) = ['}', '}'] then
        (rest.takeWhile isUpperUnd) ::
          findTokensFuel fuel ((rest.drop (rest.takeWhile isUpperUnd).length).drop 2)
      else findTokensFuel fuel ('{' :: rest)) := h
    rw [if_neg hrun2, if_neg htake2] at h2
    exact containsSub_cons _ _ _ (ih var h2)
  | case5 fuel head rest hne ih =>
    intro var h
    rw [findTokensFuel] at h
    exact containsSub_cons _ _ _ (ih var h)
    exact hne
  | case6 fuel =>
    intro var h
    have h2 : var ∈ ([] : List (List Char)) := h
    simp at h2

theorem findTokens_mem (s var : List Char) (h : var ∈ findTokens s) :
    containsSub (tokenOf var) s = true :=
  findTokensFuel_mem s.length s var h

/-- C7 (counterexample): a config containing the token for `API_KEY`
next to a token whose variable `A` is bound to a double quote: although
`API_KEY` is unset, resolution fails with `SubstitutionError`, so there
is no output containing `MISSING_API_KEY` and no valid structured data. -/
theorem c7_api_key_counterexample :
    envC7x "API_KEY" = none ∧
    containsSub (tokenOf apiKeyVar) (dumps cfgC7x) = true ∧
    resolve_env_variables envC7x cfgC7x = .error "SubstitutionError" :=
  ⟨rfl, rfl, rfl⟩

/-- C7 (amended): with every environment variable absent, a tool config
whose serialization contains exactly the token for `API_KEY` resolves
successfully — the output is the config with the token textually
replaced in its strings (valid structured data), its serialization is
exactly the `str.replace` of the input serialization, and it contains
the literal sentinel `MISSING_API_KEY` in place of the token. -/
theorem c7_sentinel_amended (env : String → Option String) (config : Value)
    (henv : ∀ x, env x = none)
    (hft : findTokens (dumps config) = [apiKeyVar]) :
    resolve_env_variables env config =
      .ok (substStr (tokenOf apiKeyVar) missingApiKey config) ∧
    dumps (substStr (tokenOf apiKeyVar) missingApiKey config) =
      replaceAll (tokenOf apiKeyVar) missingApiKey (dumps config) ∧
    containsSub missingApiKey
      (dumps (substStr (tokenOf apiKeyVar) missingApiKey config)) = true := by
  have henvv : envValue env apiKeyVar = missingApiKey := by
    unfold envValue
    rw [henv]
    rfl
  have hcomm := (subst_comm_all apiKeyVar missingApiKey (by decide) (by decide)
    ((dumps config).length)).1 config [] (le_refl _)
  rw [List.append_nil, replaceAll_nil, List.append_nil] at hcomm
  have hcomm2 : replaceAll (tokenOf apiKeyVar) missingApiKey (dumps config) =
      dumps (substStr (tokenOf apiKeyVar) missingApiKey config) := hcomm
  have hout : substLoop env (findTokens (dumps config)) (dumps config) =
      replaceAll (tokenOf apiKeyVar) missingApiKey (dumps config) := by
    rw [hft]
    show substLoop env []
      (replaceAll (tokenOf apiKeyVar) (envValue env apiKeyVar) (dumps config)) = _
    rw [henvv]
    rfl
  refine ⟨?_, hcomm2.symm, ?_⟩
  · show (match loads (substLoop env (findTokens (dumps config)) (dumps config)) with
      | some v => Except.ok v
      | none => Except.error "SubstitutionError") = _
    rw [hout, hcomm2, loads_dumps]
  · rw [← hcomm2]
    exact replaceAll_contains _ _ (by simp [tokenOf]) (dumps config).length
      (dumps config) (le_refl _)
      (findTokens_mem _ _ (by rw [hft]; exact List.mem_singleton.mpr rfl))

theorem c7_sentinel_amended_witness :
    (∀ x : String, (fun _ => (none : Option String)) x = none) ∧
    findTokens (dumps cfgC7w) = [apiKeyVar] ∧
    resolve_env_variables (fun _ => none) cfgC7w =
      .ok (substStr (tokenOf apiKeyVar) missingApiKey cfgC7w) ∧
    containsSub missingApiKey
      (dumps (substStr (tokenOf apiKeyVar) missingApiKey cfgC7w)) = true := by
  have h := c7_sentinel_amended (fun _ => none) cfgC7w (fun _ => rfl) (by rfl)
  exact ⟨fun _ => rfl, by rfl, h.1, h.2.2⟩

end Workflow
